import Mathlib

/-!
Verification of the drone environmental-monitoring system
(`phase-2/drone_server.py`, `phase-2/nodes.py`,
`term-project-after-rubric/central_server.py`) against its
natural-language specification.

Python `dict`s are modelled as insertion-ordered association lists,
Python `float`s as rationals (`ℚ`), and wall-clock times as rationals
passed explicitly to the operations that read `time.time()`.
-/

/-! ### Insertion-ordered dictionaries (Python `dict` semantics) -/

/-- `dictGet m k` is Python `m.get(k)`: the value at the first matching key. -/
def dictGet {α β : Type} [DecidableEq α] : List (α × β) → α → Option β
  | [], _ => none
  | (k, v) :: rest, k' => if k = k' then some v else dictGet rest k'

/-- `dictSet m k v` is Python `m[k] = v`: replace the first binding of `k`,
or append a new binding at the end (insertion order). -/
def dictSet {α β : Type} [DecidableEq α] : List (α × β) → α → β → List (α × β)
  | [], k, v => [(k, v)]
  | (k', v') :: rest, k, v =>
      if k' = k then (k', v) :: rest else (k', v') :: dictSet rest k v

/-- `dictRemove m k` is Python `del m[k]`: drop the first binding of `k`. -/
def dictRemove {α β : Type} [DecidableEq α] : List (α × β) → α → List (α × β)
  | [], _ => []
  | (k', v') :: rest, k =>
      if k' = k then rest else (k', v') :: dictRemove rest k

/-- The key list of a dictionary, in insertion order. -/
def dictKeys {α β : Type} (m : List (α × β)) : List α := m.map Prod.fst

theorem dictGet_dictSet_self {α β : Type} [DecidableEq α]
    (m : List (α × β)) (k : α) (v : β) : dictGet (dictSet m k v) k = some v := by
  induction m with
  | nil => simp [dictSet, dictGet]
  | cons p rest ih =>
      by_cases h : p.1 = k
      · simp [dictSet, dictGet, h]
      · simp [dictSet, dictGet, h, ih]

theorem dictGet_dictSet_ne {α β : Type} [DecidableEq α]
    (m : List (α × β)) (k k' : α) (v : β) (h : k ≠ k') :
    dictGet (dictSet m k v) k' = dictGet m k' := by
  induction m with
  | nil => simp [dictSet, dictGet, h]
  | cons p rest ih =>
      by_cases hp : p.1 = k
      · simp [dictSet, dictGet, hp, h]
      · simp [dictSet, dictGet, hp, ih]

theorem dictKeys_dictSet_of_isSome {α β : Type} [DecidableEq α]
    (m : List (α × β)) (k : α) (v : β) (h : (dictGet m k).isSome) :
    dictKeys (dictSet m k v) = dictKeys m := by
  induction m with
  | nil => simp [dictGet] at h
  | cons p rest ih =>
      by_cases hp : p.1 = k
      · simp [dictSet, hp, dictKeys]
      · simp [dictGet, hp] at h
        simp [dictSet, hp, dictKeys] at ih ⊢
        exact ih h

theorem dictKeys_dictSet_of_isNone {α β : Type} [DecidableEq α]
    (m : List (α × β)) (k : α) (v : β) (h : dictGet m k = none) :
    dictKeys (dictSet m k v) = dictKeys m ++ [k] := by
  induction m with
  | nil => simp [dictSet, dictKeys]
  | cons p rest ih =>
      by_cases hp : p.1 = k
      · simp [dictGet, hp] at h
      · simp [dictGet, hp] at h
        simp [dictSet, hp, dictKeys] at ih ⊢
        exact ih h

theorem dictGet_isSome_iff_mem_keys {α β : Type} [DecidableEq α]
    (m : List (α × β)) (k : α) : (dictGet m k).isSome ↔ k ∈ dictKeys m := by
  induction m with
  | nil => simp [dictGet, dictKeys]
  | cons p rest ih =>
      by_cases hp : p.1 = k
      · simp [dictGet, hp, dictKeys]
      · simp [dictGet, hp, dictKeys, Ne.symm hp] at ih ⊢
        exact ih

theorem dictGet_eq_none_of_not_mem_keys {α β : Type} [DecidableEq α]
    (m : List (α × β)) (k : α) (h : k ∉ dictKeys m) : dictGet m k = none := by
  rcases ho : dictGet m k with _ | v
  · rfl
  · exact absurd ((dictGet_isSome_iff_mem_keys m k).1 (by simp [ho])) h

theorem mem_of_dictGet_eq_some {α β : Type} [DecidableEq α]
    (m : List (α × β)) (k : α) (v : β) (h : dictGet m k = some v) : (k, v) ∈ m := by
  induction m with
  | nil => simp [dictGet] at h
  | cons p rest ih =>
      obtain ⟨pk, pv⟩ := p
      by_cases hp : pk = k
      · simp [dictGet, hp] at h
        simp [hp, h]
      · simp [dictGet, hp] at h
        exact List.mem_cons_of_mem _ (ih h)

theorem dictGet_of_mem {α β : Type} [DecidableEq α]
    (m : List (α × β)) (k : α) (v : β) (hnd : (dictKeys m).Nodup)
    (h : (k, v) ∈ m) : dictGet m k = some v := by
  induction m with
  | nil => simp at h
  | cons p rest ih =>
      obtain ⟨pk, pv⟩ := p
      rw [dictKeys, List.map_cons, List.nodup_cons] at hnd
      rcases List.mem_cons.1 h with h | h
      · rw [Prod.mk.injEq] at h
        simp [dictGet, h.1, h.2]
      · have hk : pk ≠ k := by
          intro he
          exact hnd.1 (by
            refine List.mem_map.2 ⟨(k, v), h, ?_⟩
            simp [he])
        simp [dictGet, hk]
        exact ih hnd.2 h

theorem mem_dictRemove_subset {α β : Type} [DecidableEq α]
    (m : List (α × β)) (k : α) (p : α × β) (h : p ∈ dictRemove m k) : p ∈ m := by
  induction m with
  | nil => simp [dictRemove] at h
  | cons q rest ih =>
      obtain ⟨qk, qv⟩ := q
      by_cases hq : qk = k
      · simp [dictRemove, hq] at h
        exact List.mem_cons_of_mem _ h
      · simp only [dictRemove, hq, if_false, List.mem_cons] at h
        rcases h with h | h
        · simp [h]
        · exact List.mem_cons_of_mem _ (ih h)

theorem dictKeys_dictRemove_sublist {α β : Type} [DecidableEq α]
    (m : List (α × β)) (k : α) :
    (dictKeys (dictRemove m k)).Sublist (dictKeys m) := by
  induction m with
  | nil => simp [dictRemove, dictKeys]
  | cons q rest ih =>
      obtain ⟨qk, qv⟩ := q
      by_cases hq : qk = k
      · simp only [dictRemove, hq, if_pos rfl, dictKeys, List.map_cons]
        exact List.sublist_cons_self _ _
      · simp only [dictRemove, hq, if_false, dictKeys, List.map_cons]
        exact List.Sublist.cons₂ _ ih

theorem dictKeys_dictRemove_nodup {α β : Type} [DecidableEq α]
    (m : List (α × β)) (k : α) (hnd : (dictKeys m).Nodup) :
    (dictKeys (dictRemove m k)).Nodup :=
  (dictKeys_dictRemove_sublist m k).nodup hnd

theorem dictGet_dictRemove_self {α β : Type} [DecidableEq α]
    (m : List (α × β)) (k : α) (hnd : (dictKeys m).Nodup) :
    dictGet (dictRemove m k) k = none := by
  induction m with
  | nil => simp [dictRemove, dictGet]
  | cons q rest ih =>
      obtain ⟨qk, qv⟩ := q
      rw [dictKeys, List.map_cons, List.nodup_cons] at hnd
      by_cases hq : qk = k
      · simp only [dictRemove, hq, if_pos rfl]
        apply dictGet_eq_none_of_not_mem_keys
        rw [← hq]
        exact hnd.1
      · simp only [dictRemove, hq, if_false, dictGet, if_neg hq]
        exact ih hnd.2

theorem dictGet_dictRemove_ne {α β : Type} [DecidableEq α]
    (m : List (α × β)) (k k' : α) (h : k' ≠ k) :
    dictGet (dictRemove m k) k' = dictGet m k' := by
  induction m with
  | nil => simp [dictRemove]
  | cons q rest ih =>
      obtain ⟨qk, qv⟩ := q
      by_cases hq : qk = k
      · subst hq
        simp [dictRemove, dictGet, Ne.symm h]
      · by_cases hq' : qk = k'
        · subst hq'
          simp [dictRemove, dictGet, hq]
        · simp [dictRemove, hq, dictGet, hq', ih]

/-! ### EdgeAggregator: `EdgeProcessor` from `phase-2/drone_server.py` -/

/-- A sensor reading as sent by a sensor node (`SensorReading` in the spec).
The ISO-8601 timestamp string is abstracted as a rational; only its identity
is ever used (equality comparison in the duplicate-anomaly check). -/
structure SensorData where
  sensor_id : String
  temperature : ℚ
  humidity : ℚ
  timestamp : ℚ
deriving DecidableEq, Repr

/-- An anomaly record as built by `EdgeProcessor._check_anomalies`. -/
structure Anomaly where
  sensor_id : String
  issue : String
  value : ℚ
  timestamp : ℚ
deriving DecidableEq, Repr

/-- State of `EdgeProcessor` (`drone_server.py`, lines 19-148). The
`lock` field is omitted: operations are modelled as atomic state
transformers, which is what the per-object mutex provides. -/
structure EdgeProcessor where
  readings : List (String × List SensorData)
  previous_readings : List (String × List SensorData)
  window_size : ℕ
  temp_threshold_high : ℚ
  temp_threshold_low : ℚ
  humidity_threshold_high : ℚ
  humidity_threshold_low : ℚ
  anomalies : List Anomaly
deriving DecidableEq, Repr

/-- `EdgeProcessor.__init__` with its default arguments
(window 10, thresholds 30/10/80/20). -/
def mkEdgeProcessor (window_size : ℕ := 10) (temp_threshold_high : ℚ := 30)
    (temp_threshold_low : ℚ := 10) (humidity_threshold_high : ℚ := 80)
    (humidity_threshold_low : ℚ := 20) : EdgeProcessor :=
  { readings := [], previous_readings := [], window_size := window_size
    temp_threshold_high := temp_threshold_high
    temp_threshold_low := temp_threshold_low
    humidity_threshold_high := humidity_threshold_high
    humidity_threshold_low := humidity_threshold_low
    anomalies := [] }

/-- The if/elif chain of `_check_anomalies` (lines 53-85): the anomaly built
for a reading, `none` when no threshold is breached. Temperature checks come
before humidity checks, high before low, and only the first match fires. -/
def detectAnomaly (ep : EdgeProcessor) (sd : SensorData) : Option Anomaly :=
  if sd.temperature > ep.temp_threshold_high then
    some ⟨sd.sensor_id, "temperature_too_high", sd.temperature, sd.timestamp⟩
  else if sd.temperature < ep.temp_threshold_low then
    some ⟨sd.sensor_id, "temperature_too_low", sd.temperature, sd.timestamp⟩
  else if sd.humidity > ep.humidity_threshold_high then
    some ⟨sd.sensor_id, "humidity_too_high", sd.humidity, sd.timestamp⟩
  else if sd.humidity < ep.humidity_threshold_low then
    some ⟨sd.sensor_id, "humidity_too_low", sd.humidity, sd.timestamp⟩
  else none

/-- `self.anomalies = self.anomalies[-10:]` applied when the history
exceeds 10 entries (lines 102-104). -/
def trimAnomalies (l : List Anomaly) : List Anomaly :=
  if l.length > 10 then l.drop (l.length - 10) else l

/-- `EdgeProcessor._check_anomalies` (lines 51-104): detect, append when not
an exact (sensor_id, issue, value, timestamp) duplicate, trim to last 10. -/
def check_anomalies (ep : EdgeProcessor) (sd : SensorData) : EdgeProcessor :=
  match detectAnomaly ep sd with
  | none => ep
  | some a =>
      let l := if a ∈ ep.anomalies then ep.anomalies else ep.anomalies ++ [a]
      { ep with anomalies := trimAnomalies l }

/-- `EdgeProcessor.update_readings` (lines 34-49): create the sensor's entry
if absent, append the reading, then run anomaly detection. Note: the stored
list is never trimmed to `window_size`. -/
def update_readings (ep : EdgeProcessor) (sd : SensorData) : EdgeProcessor :=
  let r0 := if (dictGet ep.readings sd.sensor_id).isSome then ep.readings
            else dictSet ep.readings sd.sensor_id []
  let cur := (dictGet r0 sd.sensor_id).getD []
  check_anomalies { ep with readings := dictSet r0 sd.sensor_id (cur ++ [sd]) } sd

/-- The pooled new readings consumed by `compute_averages` (lines 118-129):
for each sensor, the suffix of its stored list beyond the length of the
snapshot in `previous_readings`. -/
def newReadings (ep : EdgeProcessor) : List SensorData :=
  (ep.readings.map fun p =>
    p.2.drop ((dictGet ep.previous_readings p.1).getD []).length).flatten

/-- `EdgeProcessor.compute_averages` (lines 106-138): averages the pooled
new readings (0/0 when there are none) and snapshots `readings` into
`previous_readings` (the `copy.deepcopy` is a pure-value copy here). -/
def compute_averages (ep : EdgeProcessor) : (ℚ × ℚ) × EdgeProcessor :=
  let news := newReadings ep
  let new_temps := news.map (·.temperature)
  let new_humidities := news.map (·.humidity)
  let avg_temp := if new_temps.isEmpty then 0 else new_temps.sum / new_temps.length
  let avg_humidity :=
    if new_humidities.isEmpty then 0 else new_humidities.sum / new_humidities.length
  ((avg_temp, avg_humidity), { ep with previous_readings := ep.readings })

/-! ### Interleavings of `update_readings` and `compute_averages` calls -/

/-- One call on the edge aggregator. -/
inductive EPEvent where
  | update (sd : SensorData)
  | compute
deriving DecidableEq, Repr

/-- Effect of one call on the aggregator state. -/
def epStep (ep : EdgeProcessor) : EPEvent → EdgeProcessor
  | .update sd => update_readings ep sd
  | .compute => (compute_averages ep).2

/-- Run a sequence of calls. -/
def epRun (ep : EdgeProcessor) (es : List EPEvent) : EdgeProcessor :=
  es.foldl epStep ep

/-- Readings added by `update` events after the latest `compute` event,
starting from the pending list `l`. -/
def sinceAux (l : List SensorData) : List EPEvent → List SensorData
  | [] => l
  | .update sd :: es => sinceAux (l ++ [sd]) es
  | .compute :: es => sinceAux [] es

/-- The readings added since the previous `compute_averages` call. -/
def sinceLastCompute (es : List EPEvent) : List SensorData := sinceAux [] es

/-- Arithmetic mean of a list of rationals, `0` for the empty list
(matching the `if new_temps else 0` convention of `compute_averages`). -/
def meanOf (l : List ℚ) : ℚ := if l.isEmpty then 0 else l.sum / l.length

theorem check_anomalies_readings (ep : EdgeProcessor) (sd : SensorData) :
    (check_anomalies ep sd).readings = ep.readings := by
  unfold check_anomalies
  cases detectAnomaly ep sd <;> rfl

theorem check_anomalies_previous (ep : EdgeProcessor) (sd : SensorData) :
    (check_anomalies ep sd).previous_readings = ep.previous_readings := by
  unfold check_anomalies
  cases detectAnomaly ep sd <;> rfl

/-- Invariant tying an aggregator state to the list `l` of readings added
since the last `compute_averages` call: keys are unique, every pending
reading's sensor has an entry, and each sensor's stored list is its
snapshot in `previous_readings` followed by its pending readings. -/
def EPInv (ep : EdgeProcessor) (l : List SensorData) : Prop :=
  (dictKeys ep.readings).Nodup ∧
  (∀ sd ∈ l, sd.sensor_id ∈ dictKeys ep.readings) ∧
  (∀ s, (dictGet ep.readings s).getD [] =
    (dictGet ep.previous_readings s).getD [] ++
      l.filter (fun sd => sd.sensor_id = s))

theorem epInv_init : EPInv (mkEdgeProcessor) [] := by
  refine ⟨by simp [mkEdgeProcessor, dictKeys], by simp, fun s => ?_⟩
  simp [mkEdgeProcessor, dictGet]

theorem dictSet_dictSet_self {α β : Type} [DecidableEq α]
    (m : List (α × β)) (k : α) (v v' : β) :
    dictSet (dictSet m k v) k v' = dictSet m k v' := by
  induction m with
  | nil => simp [dictSet]
  | cons p rest ih =>
      obtain ⟨pk, pv⟩ := p
      by_cases hp : pk = k
      · simp [dictSet, hp]
      · simp [dictSet, hp, ih]

theorem option_eq_none_of_not_isSome {α : Type} {o : Option α}
    (h : ¬ o.isSome = true) : o = none := by
  rcases ho : o with _ | v
  · rfl
  · rw [ho] at h; simp at h

/-- `update_readings` in closed form: the create-if-absent step followed by
the append collapses to a single `dictSet` on the (possibly empty) current
list, after which `_check_anomalies` runs. -/
theorem update_readings_eq (ep : EdgeProcessor) (sd : SensorData) :
    update_readings ep sd =
      check_anomalies
        { ep with readings := (dictSet ep.readings sd.sensor_id
            ((dictGet ep.readings sd.sensor_id).getD [] ++ [sd])) } sd := by
  unfold update_readings
  by_cases hex : (dictGet ep.readings sd.sensor_id).isSome
  · simp only [hex, if_true]
  · have hnone := option_eq_none_of_not_isSome hex
    simp only [hnone, Option.isSome_none, Bool.false_eq_true, if_false,
      dictGet_dictSet_self, Option.getD_some, Option.getD_none, List.nil_append,
      dictSet_dictSet_self]

theorem epInv_update (ep : EdgeProcessor) (l : List SensorData) (sd : SensorData)
    (h : EPInv ep l) : EPInv (update_readings ep sd) (l ++ [sd]) := by
  obtain ⟨hnd, hmem, hpre⟩ := h
  rw [update_readings_eq]
  set s0 := sd.sensor_id with hs0
  set cur := (dictGet ep.readings s0).getD [] with hcur
  set readings' := dictSet ep.readings s0 (cur ++ [sd]) with hr'
  have hkeys : dictKeys readings' = dictKeys ep.readings ∨
      (dictKeys readings' = dictKeys ep.readings ++ [s0] ∧ s0 ∉ dictKeys ep.readings) := by
    by_cases hex : (dictGet ep.readings s0).isSome
    · exact Or.inl (dictKeys_dictSet_of_isSome _ _ _ hex)
    · refine Or.inr ⟨dictKeys_dictSet_of_isNone _ _ _ (option_eq_none_of_not_isSome hex), ?_⟩
      intro hc
      exact hex ((dictGet_isSome_iff_mem_keys _ _).2 hc)
  have hs0mem : s0 ∈ dictKeys readings' := by
    apply (dictGet_isSome_iff_mem_keys _ _).1
    rw [hr', dictGet_dictSet_self]
    rfl
  have hsub : ∀ y ∈ dictKeys ep.readings, y ∈ dictKeys readings' := by
    intro y hy
    rcases hkeys with hk | ⟨hk, _⟩
    · rw [hk]; exact hy
    · rw [hk]; exact List.mem_append.2 (Or.inl hy)
  refine ⟨?_, ?_, ?_⟩
  · rw [check_anomalies_readings]
    rcases hkeys with hk | ⟨hk, hnm⟩
    · rw [hk]; exact hnd
    · rw [hk]
      rw [List.nodup_append]
      exact ⟨hnd, by simp, by simpa [List.disjoint_singleton] using hnm⟩
  · intro x hx
    rw [check_anomalies_readings]
    rcases List.mem_append.1 hx with hx | hx
    · exact hsub _ (hmem x hx)
    · simp at hx
      subst hx
      exact hs0mem
  · intro s
    rw [check_anomalies_readings, check_anomalies_previous]
    by_cases hs : s = s0
    · subst hs
      show (dictGet readings' s0).getD [] = _
      rw [hr', dictGet_dictSet_self]
      simp only [Option.getD_some]
      rw [hcur, hpre s0]
      simp [List.filter_append, List.append_assoc, hs0]
    · show (dictGet readings' s).getD [] = _
      rw [hr', dictGet_dictSet_ne _ _ _ _ (fun he => hs he.symm)]
      rw [hpre s]
      have hfl : (l ++ [sd]).filter (fun x => x.sensor_id = s) =
          l.filter (fun x => x.sensor_id = s) := by
        simp [List.filter_append, hs0]
        intro hc
        exact absurd hc.symm hs
      rw [hfl]


theorem epInv_compute (ep : EdgeProcessor) (l : List SensorData)
    (h : EPInv ep l) : EPInv ((compute_averages ep).2) [] := by
  obtain ⟨hnd, _, _⟩ := h
  refine ⟨hnd, by simp, fun s => ?_⟩
  simp [compute_averages]

theorem epInv_run (es : List EPEvent) :
    ∀ (ep : EdgeProcessor) (l : List SensorData),
      EPInv ep l → EPInv (epRun ep es) (sinceAux l es) := by
  induction es with
  | nil => intro ep l h; exact h
  | cons e es ih =>
      intro ep l h
      cases e with
      | update sd => exact ih _ _ (epInv_update ep l sd h)
      | compute => exact ih _ _ (epInv_compute ep l h)

theorem list_sum_map_add {γ M : Type} [AddCommMonoid M] (l : List γ) (f g : γ → M) :
    (l.map fun s => f s + g s).sum = (l.map f).sum + (l.map g).sum := by
  induction l with
  | nil => simp
  | cons q rest ih =>
      simp only [List.map_cons, List.sum_cons, ih]
      abel

theorem sum_if_single {γ M : Type} [DecidableEq γ] [AddCommMonoid M]
    (keys : List γ) (k : γ) (c : M) (hnd : keys.Nodup) (hk : k ∈ keys) :
    (keys.map fun s => if k = s then c else 0).sum = c := by
  induction keys with
  | nil => simp at hk
  | cons q rest ih =>
      rw [List.nodup_cons] at hnd
      rcases List.mem_cons.1 hk with h | h
      · subst h
        have hz : (rest.map fun s => if k = s then c else 0).sum = 0 := by
          apply List.sum_eq_zero
          intro x hx
          rcases List.mem_map.1 hx with ⟨s, hs, rfl⟩
          exact if_neg (fun he => hnd.1 (by rw [he]; exact hs))
        simp [hz]
      · have hq : k ≠ q := fun he => hnd.1 (he ▸ h)
        simp only [List.map_cons, List.sum_cons, if_neg hq, zero_add]
        exact ih hnd.2 h

/-- Summing a keyed partition of `l` over a duplicate-free key list that
covers all of `l` gives the sum over `l`. -/
theorem sum_map_partition {α γ M : Type} [DecidableEq γ] [AddCommMonoid M]
    (key : α → γ) (f : α → M) (keys : List γ) (hnd : keys.Nodup) :
    ∀ l : List α, (∀ x ∈ l, key x ∈ keys) →
      (keys.map fun s => ((l.filter fun x => key x = s).map f).sum).sum =
        (l.map f).sum := by
  intro l
  induction l with
  | nil =>
      intro _
      simp
  | cons x l ih =>
      intro hmem
      have hx : key x ∈ keys := hmem x (by simp)
      have hl : ∀ y ∈ l, key y ∈ keys := fun y hy => hmem y (by simp [hy])
      have hterm : ∀ s : γ, (((x :: l).filter fun y => key y = s).map f).sum =
          (if key x = s then f x else 0) +
            ((l.filter fun y => key y = s).map f).sum := by
        intro s
        by_cases h : key x = s
        · simp [List.filter_cons, h]
        · simp [List.filter_cons, h]
      calc (keys.map fun s => (((x :: l).filter fun y => key y = s).map f).sum).sum
          = (keys.map fun s => (if key x = s then f x else 0) +
              ((l.filter fun y => key y = s).map f).sum).sum := by
            exact congrArg List.sum (List.map_congr_left fun s _ => hterm s)
        _ = (keys.map fun s => if key x = s then f x else 0).sum +
              (keys.map fun s => ((l.filter fun y => key y = s).map f).sum).sum :=
            list_sum_map_add keys _ _
        _ = f x + (l.map f).sum := by rw [sum_if_single keys _ _ hnd hx, ih hl]
        _ = ((x :: l).map f).sum := by simp

/-- Under the run invariant, the pooled new readings are, sensor by sensor,
exactly the pending readings of that sensor. -/
theorem newReadings_eq (ep : EdgeProcessor) (l : List SensorData) (h : EPInv ep l) :
    newReadings ep =
      (ep.readings.map fun p => l.filter fun sd => sd.sensor_id = p.1).flatten := by
  obtain ⟨hnd, _, hpre⟩ := h
  unfold newReadings
  refine congrArg List.flatten (List.map_congr_left ?_)
  rintro ⟨s, cur⟩ hmemp
  have hget : dictGet ep.readings s = some cur := dictGet_of_mem _ _ _ hnd hmemp
  have hcur : cur = (dictGet ep.previous_readings s).getD [] ++
      (l.filter fun sd => sd.sensor_id = s) := by
    have := hpre s
    rw [hget] at this
    simpa using this
  simp only
  rw [hcur, List.drop_left]

theorem newReadings_map_sum {M : Type} [AddCommMonoid M] (f : SensorData → M)
    (ep : EdgeProcessor) (l : List SensorData) (h : EPInv ep l) :
    ((newReadings ep).map f).sum = (l.map f).sum := by
  obtain ⟨hnd, hmem, hpre⟩ := h
  rw [newReadings_eq ep l ⟨hnd, hmem, hpre⟩]
  rw [List.map_flatten, List.sum_flatten, List.map_map, List.map_map]
  have hcomp : ep.readings.map
        ((List.sum ∘ List.map f) ∘ fun p : String × List SensorData =>
          l.filter fun sd => sd.sensor_id = p.1) =
      (dictKeys ep.readings).map
        fun s => ((l.filter fun sd => sd.sensor_id = s).map f).sum := by
    rw [dictKeys, List.map_map]
    rfl
  rw [hcomp]
  exact sum_map_partition (fun sd => sd.sensor_id) f (dictKeys ep.readings) hnd l hmem

theorem newReadings_length (ep : EdgeProcessor) (l : List SensorData)
    (h : EPInv ep l) : (newReadings ep).length = l.length := by
  have hs := newReadings_map_sum (fun _ => (1 : ℕ)) ep l h
  have hlen : ∀ t : List SensorData, (t.map fun _ => (1 : ℕ)).sum = t.length := by
    intro t
    induction t with
    | nil => rfl
    | cons x t ih => simp [ih, Nat.add_comm]
  rw [hlen, hlen] at hs
  exact hs

theorem meanOf_congr (t u : List ℚ) (hsum : t.sum = u.sum)
    (hlen : t.length = u.length) : meanOf t = meanOf u := by
  unfold meanOf
  have hemp : t.isEmpty = u.isEmpty := by
    cases t with
    | nil =>
        cases u with
        | nil => rfl
        | cons y u => simp at hlen
    | cons x t =>
        cases u with
        | nil => simp at hlen
        | cons y u => rfl
  rw [hemp, hsum, hlen]

/-- C1: in every interleaving of `update_readings` and `compute_averages`
calls starting from a fresh aggregator, each `compute_averages` call returns
the arithmetic mean temperature and mean humidity of exactly the readings
added by `update_readings` since the previous `compute_averages` call,
pooled over all sensor ids (and `(0, 0)` when no reading was added). -/
theorem computeAverages_mean_since_last_call (es : List EPEvent) :
    (compute_averages (epRun mkEdgeProcessor es)).1 =
      (meanOf ((sinceLastCompute es).map (·.temperature)),
       meanOf ((sinceLastCompute es).map (·.humidity))) := by
  have hinv : EPInv (epRun mkEdgeProcessor es) (sinceLastCompute es) :=
    epInv_run es mkEdgeProcessor [] epInv_init
  set ep := epRun mkEdgeProcessor es with hep
  set l := sinceLastCompute es with hl
  have hfst : (compute_averages ep).1 =
      (meanOf ((newReadings ep).map (·.temperature)),
       meanOf ((newReadings ep).map (·.humidity))) := rfl
  rw [hfst]
  have hlen := newReadings_length ep l hinv
  refine Prod.ext ?_ ?_
  · exact meanOf_congr _ _
      (by
        have := newReadings_map_sum (·.temperature) ep l hinv
        simpa using this)
      (by simp [hlen])
  · exact meanOf_congr _ _
      (by
        have := newReadings_map_sum (·.humidity) ep l hinv
        simpa using this)
      (by simp [hlen])

/-! ### Window bound, anomaly priority and boundary behaviour -/

/-- Anomaly-history view of `_check_anomalies` as a single equation. -/
theorem check_anomalies_anomalies_eq (ep : EdgeProcessor) (sd : SensorData) :
    (check_anomalies ep sd).anomalies =
      match detectAnomaly ep sd with
      | none => ep.anomalies
      | some a =>
          trimAnomalies (if a ∈ ep.anomalies then ep.anomalies else ep.anomalies ++ [a]) := by
  unfold check_anomalies
  cases detectAnomaly ep sd <;> rfl

/-- `detectAnomaly` only reads the threshold fields, so it is unchanged by
the readings update performed before it inside `update_readings`. -/
theorem update_readings_anomalies_eq (ep : EdgeProcessor) (sd : SensorData) :
    (update_readings ep sd).anomalies =
      match detectAnomaly ep sd with
      | none => ep.anomalies
      | some a =>
          trimAnomalies (if a ∈ ep.anomalies then ep.anomalies else ep.anomalies ++ [a]) := by
  rw [update_readings_eq, check_anomalies_anomalies_eq]
  rfl

/-- Eleven distinct readings for one sensor id, all within thresholds. -/
def elevenReadings : List SensorData :=
  (List.range 11).map fun i =>
    { sensor_id := "s1", temperature := 25, humidity := 50, timestamp := (i : ℚ) }

set_option maxRecDepth 100000 in
/-- C3 (showing the code bug): the default window size is 10, yet after 11
`update_readings` calls for one sensor the stored sequence holds all 11
readings — `update_readings` never evicts the oldest reading, so the claimed
`window_size` bound does not hold. -/
theorem updateReadings_keeps_eleven_readings :
    (mkEdgeProcessor).window_size = 10 ∧
      ((elevenReadings.foldl update_readings mkEdgeProcessor).readings.map
        fun p => (p.1, p.2.length)) = [("s1", 11)] := by
  constructor
  · rfl
  · decide

/-- Number of the four thresholds breached by a reading. -/
def breachCount (ep : EdgeProcessor) (sd : SensorData) : ℕ :=
  (if sd.temperature > ep.temp_threshold_high then 1 else 0) +
  (if sd.temperature < ep.temp_threshold_low then 1 else 0) +
  (if sd.humidity > ep.humidity_threshold_high then 1 else 0) +
  (if sd.humidity < ep.humidity_threshold_low then 1 else 0)

/-- C4: a reading that breaches several thresholds at once yields exactly one
detected anomaly, appended once to the (trimmed) history, and its issue is
chosen by the priority order temperature-too-high > temperature-too-low >
humidity-too-high > humidity-too-low. -/
theorem updateReadings_priority_single_anomaly (ep : EdgeProcessor) (sd : SensorData)
    (hmulti : 2 ≤ breachCount ep sd)
    (hfresh : ∀ a ∈ ep.anomalies, detectAnomaly ep sd ≠ some a) :
    ∃ a, detectAnomaly ep sd = some a ∧
      (update_readings ep sd).anomalies = trimAnomalies (ep.anomalies ++ [a]) ∧
      a.issue = (if sd.temperature > ep.temp_threshold_high then "temperature_too_high"
        else if sd.temperature < ep.temp_threshold_low then "temperature_too_low"
        else if sd.humidity > ep.humidity_threshold_high then "humidity_too_high"
        else "humidity_too_low") := by
  rcases hd : detectAnomaly ep sd with _ | a
  · exfalso
    unfold detectAnomaly at hd
    split_ifs at hd with h1 h2 h3 h4
    simp [breachCount, h1, h2, h3, h4] at hmulti
  · have hnotmem : a ∉ ep.anomalies := fun hmem => hfresh a hmem hd
    refine ⟨a, rfl, ?_, ?_⟩
    · rw [update_readings_anomalies_eq, hd]
      simp only [if_neg hnotmem]
    · unfold detectAnomaly at hd
      split_ifs at hd with h1 h2 h3 h4
      · obtain rfl := Option.some.inj hd
        rw [if_pos h1]
      · obtain rfl := Option.some.inj hd
        rw [if_neg h1, if_pos h2]
      · obtain rfl := Option.some.inj hd
        rw [if_neg h1, if_neg h2, if_pos h3]
      · obtain rfl := Option.some.inj hd
        rw [if_neg h1, if_neg h2, if_neg h3]

/-- A reading breaching both the temperature-high and humidity-high
thresholds of the default configuration. -/
def sdMulti : SensorData :=
  { sensor_id := "s1", temperature := 95, humidity := 95, timestamp := 0 }

/-- Witness for C4 at a concrete multi-breach reading on a fresh aggregator. -/
theorem updateReadings_priority_single_anomaly_witness :
    2 ≤ breachCount mkEdgeProcessor sdMulti ∧
      ∃ a, detectAnomaly mkEdgeProcessor sdMulti = some a ∧
        (update_readings mkEdgeProcessor sdMulti).anomalies =
          trimAnomalies (mkEdgeProcessor.anomalies ++ [a]) ∧
        a.issue =
          (if sdMulti.temperature > mkEdgeProcessor.temp_threshold_high then
            "temperature_too_high"
          else if sdMulti.temperature < mkEdgeProcessor.temp_threshold_low then
            "temperature_too_low"
          else if sdMulti.humidity > mkEdgeProcessor.humidity_threshold_high then
            "humidity_too_high"
          else "humidity_too_low") :=
  ⟨by decide,
   updateReadings_priority_single_anomaly mkEdgeProcessor sdMulti (by decide) (by decide)⟩

/-- C10: all four threshold comparisons are strict, so a reading whose
temperature sits exactly on a temperature threshold and whose humidity sits
on a humidity threshold or between them triggers no anomaly at all
(assuming the low thresholds do not exceed the high ones, as in the default
configuration). -/
theorem boundary_reading_no_anomaly (ep : EdgeProcessor) (sd : SensorData)
    (hto : ep.temp_threshold_low ≤ ep.temp_threshold_high)
    (hho : ep.humidity_threshold_low ≤ ep.humidity_threshold_high)
    (ht : sd.temperature = ep.temp_threshold_high ∨
      sd.temperature = ep.temp_threshold_low)
    (hh : sd.humidity = ep.humidity_threshold_high ∨
      sd.humidity = ep.humidity_threshold_low ∨
      (ep.humidity_threshold_low ≤ sd.humidity ∧
        sd.humidity ≤ ep.humidity_threshold_high)) :
    detectAnomaly ep sd = none ∧
      (update_readings ep sd).anomalies = ep.anomalies := by
  have h1 : ¬ sd.temperature > ep.temp_threshold_high := by
    rcases ht with h | h
    · rw [h]; exact lt_irrefl _
    · rw [h]; exact not_lt.2 hto
  have h2 : ¬ sd.temperature < ep.temp_threshold_low := by
    rcases ht with h | h
    · rw [h]; exact not_lt.2 hto
    · rw [h]; exact lt_irrefl _
  have h3 : ¬ sd.humidity > ep.humidity_threshold_high := by
    rcases hh with h | h | h
    · rw [h]; exact lt_irrefl _
    · rw [h]; exact not_lt.2 hho
    · exact not_lt.2 h.2
  have h4 : ¬ sd.humidity < ep.humidity_threshold_low := by
    rcases hh with h | h | h
    · rw [h]; exact not_lt.2 hho
    · rw [h]; exact lt_irrefl _
    · exact not_lt.2 h.1
  have hdet : detectAnomaly ep sd = none := by
    unfold detectAnomaly
    rw [if_neg h1, if_neg h2, if_neg h3, if_neg h4]
  refine ⟨hdet, ?_⟩
  rw [update_readings_anomalies_eq, hdet]

/-- A reading sitting exactly on the default temperature-high and
humidity-high thresholds. -/
def sdBoundary : SensorData :=
  { sensor_id := "s1", temperature := 30, humidity := 80, timestamp := 0 }

/-- Witness for C10 at a concrete boundary reading on the default config. -/
theorem boundary_reading_no_anomaly_witness :
    (sdBoundary.temperature = mkEdgeProcessor.temp_threshold_high ∨
      sdBoundary.temperature = mkEdgeProcessor.temp_threshold_low) ∧
      detectAnomaly mkEdgeProcessor sdBoundary = none ∧
      (update_readings mkEdgeProcessor sdBoundary).anomalies =
        mkEdgeProcessor.anomalies :=
  ⟨by decide,
   boundary_reading_no_anomaly mkEdgeProcessor sdBoundary (by decide) (by decide)
     (by decide) (by decide)⟩

/-! ### PowerStateMachine: `BatteryManager` from `phase-2/drone_server.py` -/

/-- State of `BatteryManager` (lines 151-234). The dynamically-created
`last_charge_time` attribute is an `Option` (`none` = attribute absent).
Wall-clock values read from `time.time()` are passed in explicitly. -/
structure BatteryManager where
  level : ℚ
  threshold : ℚ
  consumption_rate : ℚ
  charging_rate : ℚ
  time_to_return : ℚ
  returning_to_base : Bool
  charging : Bool
  returning_start_time : Option ℚ
  charging_start_time : Option ℚ
  charge_start_level : ℚ
  last_charge_time : Option ℚ
deriving DecidableEq, Repr

/-- `BatteryManager.__init__`. -/
def mkBatteryManager (initial_level : ℚ := 100) (threshold : ℚ := 20)
    (consumption_rate : ℚ := 1/10) (charging_rate : ℚ := 1/2)
    (time_to_return : ℚ := 10) : BatteryManager :=
  { level := initial_level, threshold := threshold
    consumption_rate := consumption_rate, charging_rate := charging_rate
    time_to_return := time_to_return
    returning_to_base := false, charging := false
    returning_start_time := none, charging_start_time := none
    charge_start_level := 0, last_charge_time := none }

/-- The three externally visible modes (`PowerState.mode` in the spec),
derived from the two flags: `charging` wins, then `returning_to_base`. -/
inductive PowerMode where
  | Normal
  | Returning
  | Charging
deriving DecidableEq, Repr

def BatteryManager.mode (bm : BatteryManager) : PowerMode :=
  if bm.charging then .Charging
  else if bm.returning_to_base then .Returning
  else .Normal

/-- Python truthiness of a stored time: `None` and `0.0` are falsy
(`if ... and self.returning_start_time:`). -/
def timeTruthy (o : Option ℚ) : Bool := o.getD 0 ≠ 0

/-- `BatteryManager.consume` (lines 174-185), with `t` the value
`time.time()` would return if the Returning transition fires. Returns the
new state and the transition flag. -/
def consume (t : ℚ) (bm : BatteryManager) : BatteryManager × Bool :=
  if ¬ bm.charging ∧ ¬ bm.returning_to_base then
    let level' := max 0 (bm.level - bm.consumption_rate)
    if level' < bm.threshold then
      ({ bm with
          level := level'
          returning_to_base := true
          returning_start_time := some t }, true)
    else ({ bm with level := level' }, false)
  else (bm, false)

/-- The second block of `BatteryManager.charge` (lines 211-234): while
charging below 80, add elapsed-time × rate (capping at 80), and on reaching
80 reset to Normal, clearing all bookkeeping (`delattr` for
`last_charge_time`). Reached only when the arrival branch did not fire. -/
def chargingPhase (t : ℚ) (bm : BatteryManager) : BatteryManager :=
  if bm.charging ∧ bm.level < 80 then
    let lct := bm.last_charge_time.getD t
    let level' := min 80 (bm.level + (t - lct) * bm.charging_rate)
    if level' ≥ 80 then
      { bm with
        level := level'
        returning_to_base := false
        charging := false
        returning_start_time := none
        charging_start_time := none
        charge_start_level := 0
        last_charge_time := none }
    else
      { bm with
        level := level'
        last_charge_time := some t }
  else bm

/-- `BatteryManager.charge` (lines 187-234) at wall-clock time `t`: if
returning (with a truthy start time) and the transit duration has elapsed,
arrive and start charging (early `return`); otherwise fall through to the
charging block. -/
def charge (t : ℚ) (bm : BatteryManager) : BatteryManager :=
  if bm.returning_to_base ∧ ¬ bm.charging ∧ timeTruthy bm.returning_start_time then
    if t - bm.returning_start_time.getD 0 ≥ bm.time_to_return then
      { bm with
        charging := true
        charging_start_time := some t
        last_charge_time := some (bm.last_charge_time.getD t)
        charge_start_level := bm.level }
    else chargingPhase t bm
  else chargingPhase t bm

/-- A sequence of `consume` ticks at the given times, collecting the
returned transition flags in order. -/
def consumeSeq (bm : BatteryManager) : List ℚ → BatteryManager × List Bool
  | [] => (bm, [])
  | t :: ts =>
      let s := consume t bm
      let r := consumeSeq s.1 ts
      (r.1, s.2 :: r.2)

/-- C5: from level 25, threshold 20, drain 1/tick in Normal mode, the sixth
`consume` tick (and only it) reports the transition, leaving level 19 in
Returning mode; a `charge` call once the transit time has elapsed enters
Charging at unchanged level; and a later `charge` call that supplies at
least the missing 61 percentage points reaches 80 and returns to Normal
with the returning/charging start times and the charge-start level cleared. -/
theorem battery_scenario (cr ttr t1 t2 t3 t4 t5 t6 tA tB : ℚ)
    (h6 : t6 ≠ 0) (harr : tA - t6 ≥ ttr) (hchg : (tB - tA) * cr ≥ 61) :
    (consumeSeq (mkBatteryManager 25 20 1 cr ttr) [t1, t2, t3, t4, t5, t6]).2 =
        [false, false, false, false, false, true] ∧
    (consumeSeq (mkBatteryManager 25 20 1 cr ttr) [t1, t2, t3, t4, t5, t6]).1.level = 19 ∧
    (consumeSeq (mkBatteryManager 25 20 1 cr ttr) [t1, t2, t3, t4, t5, t6]).1.mode =
        .Returning ∧
    (charge tA (consumeSeq (mkBatteryManager 25 20 1 cr ttr)
        [t1, t2, t3, t4, t5, t6]).1).mode = .Charging ∧
    (charge tA (consumeSeq (mkBatteryManager 25 20 1 cr ttr)
        [t1, t2, t3, t4, t5, t6]).1).level = 19 ∧
    (charge tB (charge tA (consumeSeq (mkBatteryManager 25 20 1 cr ttr)
        [t1, t2, t3, t4, t5, t6]).1)).mode = .Normal ∧
    (charge tB (charge tA (consumeSeq (mkBatteryManager 25 20 1 cr ttr)
        [t1, t2, t3, t4, t5, t6]).1)).level = 80 ∧
    (charge tB (charge tA (consumeSeq (mkBatteryManager 25 20 1 cr ttr)
        [t1, t2, t3, t4, t5, t6]).1)).returning_start_time = none ∧
    (charge tB (charge tA (consumeSeq (mkBatteryManager 25 20 1 cr ttr)
        [t1, t2, t3, t4, t5, t6]).1)).charging_start_time = none ∧
    (charge tB (charge tA (consumeSeq (mkBatteryManager 25 20 1 cr ttr)
        [t1, t2, t3, t4, t5, t6]).1)).charge_start_level = 0 := by
  have hr1 : (consumeSeq (mkBatteryManager 25 20 1 cr ttr) [t1, t2, t3, t4, t5, t6]).1 =
      { mkBatteryManager 25 20 1 cr ttr with
        level := 19
        returning_to_base := true
        returning_start_time := some t6 } := by
    norm_num [consumeSeq, consume, mkBatteryManager]
  have hr2 : (consumeSeq (mkBatteryManager 25 20 1 cr ttr) [t1, t2, t3, t4, t5, t6]).2 =
      [false, false, false, false, false, true] := by
    norm_num [consumeSeq, consume, mkBatteryManager]
  have hA : charge tA ({ mkBatteryManager 25 20 1 cr ttr with
      level := 19
      returning_to_base := true
      returning_start_time := some t6 }) =
      { mkBatteryManager 25 20 1 cr ttr with
        level := 19
        returning_to_base := true
        returning_start_time := some t6
        charging := true
        charging_start_time := some tA
        last_charge_time := some tA
        charge_start_level := 19 } := by
    simp [charge, timeTruthy, h6, harr, mkBatteryManager]
  have h80 : min (80 : ℚ) (19 + (tB - tA) * cr) = 80 :=
    min_eq_left (by linarith)
  have hB : charge tB ({ mkBatteryManager 25 20 1 cr ttr with
      level := 19
      returning_to_base := true
      returning_start_time := some t6
      charging := true
      charging_start_time := some tA
      last_charge_time := some tA
      charge_start_level := 19 }) =
      { mkBatteryManager 25 20 1 cr ttr with level := 80 } := by
    norm_num [charge, chargingPhase, mkBatteryManager, h80]
  rw [hr2, hr1, hA, hB]
  refine ⟨rfl, ?_, ?_, ?_, ?_, ?_, ?_, ?_, ?_, ?_⟩ <;>
    simp [BatteryManager.mode, mkBatteryManager]

/-- Witness for C5 with concrete rates and times (charging rate 1/2; the
second charge call comes 122 seconds later, supplying the 61 points). -/
theorem battery_scenario_witness :
    ((6 : ℚ) ≠ 0 ∧ (16 : ℚ) - 6 ≥ 10 ∧ ((138 : ℚ) - 16) * (1/2) ≥ 61) ∧
    (consumeSeq (mkBatteryManager 25 20 1 (1/2) 10) [1, 2, 3, 4, 5, 6]).2 =
        [false, false, false, false, false, true] ∧
    (consumeSeq (mkBatteryManager 25 20 1 (1/2) 10) [1, 2, 3, 4, 5, 6]).1.level = 19 ∧
    (consumeSeq (mkBatteryManager 25 20 1 (1/2) 10) [1, 2, 3, 4, 5, 6]).1.mode =
        .Returning ∧
    (charge 16 (consumeSeq (mkBatteryManager 25 20 1 (1/2) 10)
        [1, 2, 3, 4, 5, 6]).1).mode = .Charging ∧
    (charge 16 (consumeSeq (mkBatteryManager 25 20 1 (1/2) 10)
        [1, 2, 3, 4, 5, 6]).1).level = 19 ∧
    (charge 138 (charge 16 (consumeSeq (mkBatteryManager 25 20 1 (1/2) 10)
        [1, 2, 3, 4, 5, 6]).1)).mode = .Normal ∧
    (charge 138 (charge 16 (consumeSeq (mkBatteryManager 25 20 1 (1/2) 10)
        [1, 2, 3, 4, 5, 6]).1)).level = 80 ∧
    (charge 138 (charge 16 (consumeSeq (mkBatteryManager 25 20 1 (1/2) 10)
        [1, 2, 3, 4, 5, 6]).1)).returning_start_time = none ∧
    (charge 138 (charge 16 (consumeSeq (mkBatteryManager 25 20 1 (1/2) 10)
        [1, 2, 3, 4, 5, 6]).1)).charging_start_time = none ∧
    (charge 138 (charge 16 (consumeSeq (mkBatteryManager 25 20 1 (1/2) 10)
        [1, 2, 3, 4, 5, 6]).1)).charge_start_level = 0 :=
  ⟨by norm_num,
   battery_scenario (1/2) 10 1 2 3 4 5 6 16 138 (by norm_num) (by norm_num) (by norm_num)⟩

/-! ### Mode-cycle and level-monotonicity invariant of the battery machine -/

/-- One call on the battery manager, tagged with its wall-clock time. -/
inductive BMEvent where
  | consumeCall (t : ℚ)
  | chargeCall (t : ℚ)
deriving DecidableEq, Repr

def BMEvent.time : BMEvent → ℚ
  | .consumeCall t => t
  | .chargeCall t => t

def bmStep (bm : BatteryManager) : BMEvent → BatteryManager
  | .consumeCall t => (consume t bm).1
  | .chargeCall t => charge t bm

/-- The trace of states visited by a call sequence (first state included). -/
def bmStates (bm : BatteryManager) : List BMEvent → List BatteryManager
  | [] => [bm]
  | e :: es => bm :: bmStates (bmStep bm e) es

/-- A call sequence is valid from lower time bound `t0` when its wall-clock
times are nondecreasing (as `time.time()` values are). -/
def validFrom (t0 : ℚ) : List BMEvent → Bool
  | [] => true
  | e :: es => (t0 ≤ e.time) && validFrom e.time es

/-- Successor in the cycle Normal → Returning → Charging → Normal. -/
def nextMode : PowerMode → PowerMode
  | .Normal => .Returning
  | .Returning => .Charging
  | .Charging => .Normal

/-- One step is admissible: the mode stays or advances one place along the
cycle, and the level is non-increasing in Normal, held in Returning, and
non-decreasing in Charging. -/
def stepOK (bm bm' : BatteryManager) : Prop :=
  (bm'.mode = bm.mode ∨ bm'.mode = nextMode bm.mode) ∧
  (bm.mode = .Normal → bm'.level ≤ bm.level) ∧
  (bm.mode = .Returning → bm'.level = bm.level) ∧
  (bm.mode = .Charging → bm.level ≤ bm'.level)

/-- Run invariant: the level is non-negative and any recorded
`last_charge_time` lies in the past of the bound `t0`. -/
def BMOk (bm : BatteryManager) (t0 : ℚ) : Prop :=
  0 ≤ bm.level ∧ (∀ x, bm.last_charge_time = some x → x ≤ t0)

theorem consume_stepOK (bm : BatteryManager) (t t0 : ℚ)
    (hc : 0 ≤ bm.consumption_rate) (hinv : BMOk bm t0) (ht : t0 ≤ t) :
    stepOK bm (consume t bm).1 ∧ BMOk (consume t bm).1 t := by
  obtain ⟨hlev, hlct⟩ := hinv
  unfold consume
  by_cases hcond : ¬ bm.charging ∧ ¬ bm.returning_to_base
  · rw [if_pos hcond]
    obtain ⟨hch, hrt⟩ := hcond
    have hmode : bm.mode = .Normal := by simp [BatteryManager.mode, hch, hrt]
    have hlev' : max 0 (bm.level - bm.consumption_rate) ≤ bm.level :=
      max_le hlev (by linarith)
    have hlev0 : (0 : ℚ) ≤ max 0 (bm.level - bm.consumption_rate) := le_max_left _ _
    by_cases hth : max 0 (bm.level - bm.consumption_rate) < bm.threshold
    · rw [if_pos hth]
      refine ⟨⟨Or.inr ?_, fun _ => hlev', fun hmo => ?_, fun hmo => ?_⟩,
        hlev0, fun x hx => le_trans (hlct x hx) ht⟩
      · rw [hmode]
        simp [BatteryManager.mode, nextMode, hch]
      · rw [hmode] at hmo; simp at hmo
      · rw [hmode] at hmo; simp at hmo
    · rw [if_neg hth]
      refine ⟨⟨Or.inl rfl, fun _ => hlev', fun hmo => ?_, fun hmo => ?_⟩,
        hlev0, fun x hx => le_trans (hlct x hx) ht⟩
      · rw [hmode] at hmo; simp at hmo
      · rw [hmode] at hmo; simp at hmo
  · rw [if_neg hcond]
    exact ⟨⟨Or.inl rfl, fun _ => le_refl _, fun _ => rfl, fun _ => le_refl _⟩,
      hlev, fun x hx => le_trans (hlct x hx) ht⟩

theorem charge_stepOK (bm : BatteryManager) (t t0 : ℚ)
    (hg : 0 ≤ bm.charging_rate) (hinv : BMOk bm t0) (ht : t0 ≤ t) :
    stepOK bm (charge t bm) ∧ BMOk (charge t bm) t := by
  obtain ⟨hlev, hlct⟩ := hinv
  have hphase : stepOK bm (chargingPhase t bm) ∧ BMOk (chargingPhase t bm) t := by
    unfold chargingPhase
    by_cases hcp : bm.charging ∧ bm.level < 80
    · rw [if_pos hcp]
      obtain ⟨hch, hlt⟩ := hcp
      have hmode : bm.mode = .Charging := by simp [BatteryManager.mode, hch]
      have hlcte : bm.last_charge_time.getD t ≤ t := by
        rcases hl : bm.last_charge_time with _ | x
        · simp
        · simpa using le_trans (hlct x hl) ht
      have hmono : bm.level ≤
          min 80 (bm.level + (t - bm.last_charge_time.getD t) * bm.charging_rate) := by
        apply le_min (le_of_lt hlt)
        have hnn : 0 ≤ (t - bm.last_charge_time.getD t) * bm.charging_rate :=
          mul_nonneg (by linarith) hg
        linarith
      by_cases h80 : min 80 (bm.level + (t - bm.last_charge_time.getD t) *
          bm.charging_rate) ≥ 80
      · rw [if_pos h80]
        refine ⟨⟨Or.inr ?_, fun hmo => ?_, fun hmo => ?_, fun _ => hmono⟩,
          le_trans hlev hmono, fun x hx => by simp at hx⟩
        · rw [hmode]
          simp [BatteryManager.mode, nextMode]
        · rw [hmode] at hmo; simp at hmo
        · rw [hmode] at hmo; simp at hmo
      · rw [if_neg h80]
        refine ⟨⟨Or.inl ?_, fun hmo => ?_, fun hmo => ?_, fun _ => hmono⟩,
          le_trans hlev hmono, fun x hx => ?_⟩
        · rw [hmode]
          simp [BatteryManager.mode, hch]
        · rw [hmode] at hmo; simp at hmo
        · rw [hmode] at hmo; simp at hmo
        · injection hx with hx
          rw [← hx]
    · rw [if_neg hcp]
      exact ⟨⟨Or.inl rfl, fun _ => le_refl _, fun _ => rfl, fun _ => le_refl _⟩,
        hlev, fun x hx => le_trans (hlct x hx) ht⟩
  unfold charge
  by_cases hb1 : bm.returning_to_base ∧ ¬ bm.charging ∧
      timeTruthy bm.returning_start_time
  · rw [if_pos hb1]
    obtain ⟨hrt, hch, _⟩ := hb1
    by_cases harr : t - bm.returning_start_time.getD 0 ≥ bm.time_to_return
    · rw [if_pos harr]
      have hmode : bm.mode = .Returning := by simp [BatteryManager.mode, hch, hrt]
      refine ⟨⟨Or.inr ?_, fun hmo => ?_, fun _ => rfl, fun hmo => ?_⟩,
        hlev, fun x hx => ?_⟩
      · rw [hmode]
        simp [BatteryManager.mode, nextMode]
      · rw [hmode] at hmo
      · rw [hmode] at hmo
      · injection hx with hx
        rcases hl : bm.last_charge_time with _ | y
        · rw [hl] at hx
          simp at hx
          rw [← hx]
        · rw [hl] at hx
          simp at hx
          rw [← hx]
          exact le_trans (hlct y hl) ht
    · rw [if_neg harr]
      exact hphase
  · rw [if_neg hb1]
    exact hphase

theorem consume_preserves_rates (t : ℚ) (bm : BatteryManager) :
    (consume t bm).1.consumption_rate = bm.consumption_rate ∧
    (consume t bm).1.charging_rate = bm.charging_rate := by
  simp only [consume]
  split_ifs <;> exact ⟨rfl, rfl⟩

theorem charge_preserves_rates (t : ℚ) (bm : BatteryManager) :
    (charge t bm).consumption_rate = bm.consumption_rate ∧
    (charge t bm).charging_rate = bm.charging_rate := by
  simp only [charge, chargingPhase]
  split_ifs <;> exact ⟨rfl, rfl⟩

theorem bmStates_head (bm : BatteryManager) (es : List BMEvent) :
    (bmStates bm es).head? = some bm := by
  cases es <;> rfl

theorem bmChain : ∀ (es : List BMEvent) (bm0 : BatteryManager) (t0 : ℚ),
    0 ≤ bm0.consumption_rate → 0 ≤ bm0.charging_rate → BMOk bm0 t0 →
    validFrom t0 es = true → List.Chain' stepOK (bmStates bm0 es) := by
  intro es
  induction es with
  | nil =>
      intro bm0 t0 _ _ _ _
      simp [bmStates]
  | cons e es ih =>
      intro bm0 t0 hc hg hinv hv
      simp only [validFrom, Bool.and_eq_true, decide_eq_true_eq] at hv
      obtain ⟨hle, hv'⟩ := hv
      have hstep : stepOK bm0 (bmStep bm0 e) ∧ BMOk (bmStep bm0 e) e.time := by
        cases e with
        | consumeCall t => exact consume_stepOK bm0 t t0 hc hinv hle
        | chargeCall t => exact charge_stepOK bm0 t t0 hg hinv hle
      have hrates : (bmStep bm0 e).consumption_rate = bm0.consumption_rate ∧
          (bmStep bm0 e).charging_rate = bm0.charging_rate := by
        cases e with
        | consumeCall t => exact consume_preserves_rates t bm0
        | chargeCall t => exact charge_preserves_rates t bm0
      show List.Chain' stepOK (bm0 :: bmStates (bmStep bm0 e) es)
      rw [List.chain'_cons']
      refine ⟨?_, ih (bmStep bm0 e) e.time (by rw [hrates.1]; exact hc)
        (by rw [hrates.2]; exact hg) hstep.2 hv'⟩
      intro y hy
      rw [bmStates_head, Option.mem_def, Option.some.injEq] at hy
      rw [← hy]
      exact hstep.1

/-- C6: along any sequence of `consume` and `charge` calls with
nondecreasing positive wall-clock times, starting from a freshly
constructed battery manager with non-negative level and rates, every step
either keeps the mode or advances it one place along the cycle
Normal → Returning → Charging → Normal (no skipping), and the level is
non-increasing while in Normal, held while in Returning, and
non-decreasing while in Charging. -/
theorem battery_mode_cycle_level_monotone (level0 th cr gr ttr : ℚ)
    (h0 : 0 ≤ level0) (hc : 0 ≤ cr) (hg : 0 ≤ gr)
    (es : List BMEvent) (hv : validFrom 0 es = true) :
    List.Chain' stepOK (bmStates (mkBatteryManager level0 th cr gr ttr) es) :=
  bmChain es (mkBatteryManager level0 th cr gr ttr) 0 hc hg
    ⟨h0, fun x hx => by simp [mkBatteryManager] at hx⟩ hv

/-- Witness for C6 on a short concrete trace that drains into Returning,
arrives, charges to the target and resumes Normal operation. -/
theorem battery_mode_cycle_level_monotone_witness :
    validFrom 0 [BMEvent.consumeCall 1, BMEvent.consumeCall 2,
      BMEvent.chargeCall 13, BMEvent.chargeCall 200] = true ∧
    List.Chain' stepOK (bmStates (mkBatteryManager 21 20 1 1 10)
      [BMEvent.consumeCall 1, BMEvent.consumeCall 2,
       BMEvent.chargeCall 13, BMEvent.chargeCall 200]) :=
  ⟨by decide,
   battery_mode_cycle_level_monotone 21 20 1 1 10 (by norm_num) (by norm_num)
     (by norm_num) _ (by decide)⟩

/-! ### SensorClient reconnection: `SensorNode` from `phase-2/nodes.py` -/

/-- The exponential backoff delay slept after failed attempt number
`attempt` (`wait_time = 2 ** current_attempt`, line 171). -/
def backoffWait (attempt : ℕ) : ℕ := 2 ^ attempt

/-- The retry loop of `SensorNode.handle_reconnection` (lines 159-176) in
the scenario where every connection attempt is refused
(`connect_to_drone` returns `False` each time) and `running`/`is_broken`
do not change while the loop runs. Arguments are the attempt ceiling and
the current attempt counter; the result is the return value paired with
the list of (attempt number, backoff delay slept) events, in order.
Recursion is on the remaining attempt budget. -/
def reconnectLoop : ℕ → ℕ → Bool × List (ℕ × ℕ)
  | 0, _ => (false, [])
  | budget + 1, cur =>
      let cur' := cur + 1
      let r := reconnectLoop budget cur'
      (r.1, (cur', backoffWait cur') :: r.2)

/-- `SensorNode.handle_reconnection` (lines 138-176) under sustained
connection refusal: the broken guard returns `False` immediately; otherwise
the loop runs `max_attempts = 5` times (while `running` holds). -/
def handle_reconnection (running broken : Bool) : Bool × List (ℕ × ℕ) :=
  if broken then (false, [])
  else if running then reconnectLoop 5 0
  else (false, [])

/-- Outcome of the startup portion of `SensorNode.run` (lines 208-218). -/
inductive StartupOutcome where
  | mainLoop
  | exitProcess
deriving DecidableEq, Repr

/-- `SensorNode.run` startup: enter the main loop if the initial
`connect_to_drone` succeeds, otherwise only if `handle_reconnection`
succeeds; on reconnection failure the method returns (the node exits). -/
def runStartup (initialConnect reconnectResult : Bool) : StartupOutcome :=
  if initialConnect then .mainLoop
  else if reconnectResult then .mainLoop
  else .exitProcess

/-- C8: under sustained refusal a running, non-broken node makes exactly 5
reconnection attempts, sleeping 2, 4, 8, 16 and 32 seconds after attempts
1..5 respectively, then reports failure; and when this happens on the very
first connection, `run` exits instead of retrying from the main loop. -/
theorem reconnection_five_attempts_exponential_backoff :
    handle_reconnection true false =
      (false, [(1, 2), (2, 4), (3, 8), (4, 16), (5, 32)]) ∧
    runStartup false (handle_reconnection true false).1 = .exitProcess := by
  constructor
  · rfl
  · rfl

/-! ### Central tier: `ServerGUI.add_anomalies` and
`CentralServer._monitor_connections` from
`term-project-after-rubric/central_server.py` -/

/-- An anomaly as received by the central server. Fields read with
`.get(...)` may be absent, hence `Option`; the timestamp string is kept as
a rational tag. -/
structure CAnomaly where
  sensor_id : Option String
  issue : Option String
  value : Option ℚ
  threshold : Option ℚ
  timestamp : ℚ
deriving DecidableEq, Repr

/-- A record of `CentralServer.active_connections` (lines 1253-1256):
the logical drone id (`None` until first identified), the last activity
time, and whether a socket object is stored under `"connection"`. -/
structure ConnRec where
  drone_id : Option String
  last_active : ℚ
  has_socket : Bool
deriving DecidableEq, Repr

/-- Central-tier state relevant to anomaly deduplication and the liveness
monitor. Keys of `last_anomaly_report` and `drone_statuses` are
`Option String` because `client_info.get("drone_id", addr)` yields the
stored `None` for never-identified connections (the `"drone_id"` key is
always present, so the `addr` default is never used). `drone_statuses`
keeps only the `"status"` field read and written by the code modelled
here. -/
structure CentralState where
  anomalies : List (Option String × CAnomaly)
  last_anomaly_report :
    List (Option String × List ((Option String × Option String) × Option ℚ))
  drone_statuses : List (Option String × String)
  active_connections : List (ℕ × ConnRec)
deriving DecidableEq, Repr

/-- `ServerGUI.add_anomalies` (lines 1027-1073). Faithful to the source's
indentation: the `for` loop only extracts each anomaly's fields, and the
dedup-check / append / report-update / forward block sits at function level
(column 8), so it runs once per call using the values of the LAST batch
element. Returns the new state and the entries forwarded to the display
(`self.root.after(0, self._update_anomaly_display, [anomaly_entry])`);
each history entry and forwarded entry carries the injected `drone_id`. -/
def add_anomalies (drone_id : Option String) (anomalies : List CAnomaly)
    (st : CentralState) : CentralState × List (Option String × CAnomaly) :=
  match anomalies.getLast? with
  | none => (st, [])
  | some last =>
      let anomaly_key := (last.sensor_id, last.issue)
      let rep := (dictGet st.last_anomaly_report drone_id).getD []
      if dictGet rep anomaly_key ≠ some last.value then
        let entry := (drone_id, last)
        let hist := st.anomalies ++ [entry]
        let rep' := dictSet rep anomaly_key last.value
        let hist' := if hist.length > 1000 then hist.drop 1 else hist
        ({ st with
            anomalies := hist'
            last_anomaly_report := dictSet st.last_anomaly_report drone_id rep' },
          [entry])
      else (st, [])

/-- The empty central state (fresh `ServerGUI`). -/
def emptyCentral : CentralState :=
  { anomalies := [], last_anomaly_report := []
    drone_statuses := [], active_connections := [] }

/-- First element of a two-anomaly batch: a fresh temperature alert. -/
def caTemp : CAnomaly :=
  { sensor_id := some "s1", issue := some "temperature_too_high"
    value := some 95, threshold := none, timestamp := 0 }

/-- Second element of the batch: a fresh humidity alert for another sensor. -/
def caHumid : CAnomaly :=
  { sensor_id := some "s2", issue := some "humidity_too_high"
    value := some 85, threshold := none, timestamp := 0 }

/-- C2 (showing the code bug): in a batch of two anomalies whose keys are
both new, only the last one is appended to the history and forwarded; the
first is silently dropped even though its (sensor_id, issue) key is new —
the dedup/append block runs once per call (after the loop), not once per
anomaly. -/
theorem addAnomalies_batch_drops_all_but_last :
    (add_anomalies (some "d1") [caTemp, caHumid] emptyCentral).1.anomalies =
      [(some "d1", caHumid)] ∧
    (add_anomalies (some "d1") [caTemp, caHumid] emptyCentral).2 =
      [(some "d1", caHumid)] ∧
    dictGet ((dictGet emptyCentral.last_anomaly_report (some "d1")).getD [])
      (caTemp.sensor_id, caTemp.issue) ≠ some caTemp.value := by
  refine ⟨?_, ?_, ?_⟩ <;> decide

/-- `timeout_seconds` of `_monitor_connections` (line 1429). -/
def timeout_seconds : ℚ := 45

/-- The `connection_lost` anomaly synthesized by the monitor
(lines 1485-1491): value and threshold are the timeout duration, the
sensor id is `"N/A"`. -/
def connLostAnomaly (now : ℚ) : CAnomaly :=
  { sensor_id := some "N/A", issue := some "connection_lost"
    value := some timeout_seconds, threshold := some timeout_seconds
    timestamp := now }

/-- Removal of a timed-out record (`del self.active_connections[addr]`). -/
def evictRemove (st : CentralState) (addr : ℕ) : CentralState :=
  { st with active_connections := dictRemove st.active_connections addr }

/-- The `any(...)` check of lines 1472-1473: some other live record (with a
stored socket) still maps to the same drone id. -/
def stillConnected (st : CentralState) (k : Option String) : Bool :=
  st.active_connections.any fun p => decide (p.2.drone_id = k) && p.2.has_socket

/-- `update_drone_status(drone_id, "Disconnected", ...)` restricted to the
status field (lines 1480-1483 with 1110-1121). -/
def setDisconnected (st : CentralState) (k : Option String) : CentralState :=
  { st with drone_statuses := dictSet st.drone_statuses k "Disconnected" }

/-- Processing of one timed-out address inside the sweep (lines 1450-1491):
look the record up again, close/remove it, and — when no other live record
has the same drone id and the drone is not already marked Disconnected —
mark it Disconnected and emit a `connection_lost` anomaly through
`add_anomalies`. The accumulator carries the state and the entries
forwarded so far. -/
def evictAddr (now : ℚ) (acc : CentralState × List (Option String × CAnomaly))
    (addr : ℕ) : CentralState × List (Option String × CAnomaly) :=
  match dictGet acc.1.active_connections addr with
  | none => acc
  | some rec =>
      let st1 := evictRemove acc.1 addr
      if stillConnected st1 rec.drone_id then (st1, acc.2)
      else if dictGet st1.drone_statuses rec.drone_id ≠ some "Disconnected" then
        let r := add_anomalies rec.drone_id [connLostAnomaly now]
          (setDisconnected st1 rec.drone_id)
        (r.1, acc.2 ++ r.2)
      else (st1, acc.2)

/-- One sweep of `CentralServer._monitor_connections` (lines 1440-1491) at
wall-clock time `now`: collect the addresses whose inactivity strictly
exceeds the timeout, then process them in order. -/
def monitor_sweep (now : ℚ) (st : CentralState) :
    CentralState × List (Option String × CAnomaly) :=
  ((st.active_connections.filter fun p =>
      now - p.2.last_active > timeout_seconds).map Prod.fst).foldl
    (evictAddr now) (st, [])

/-- Number of `connection_lost` entries for drone key `k` in a forwarded
batch. -/
def connLostEmitted (k : Option String)
    (l : List (Option String × CAnomaly)) : ℕ :=
  (l.filter fun e => e.1 = k ∧ e.2.issue = some "connection_lost").length

theorem connLostEmitted_append (k : Option String)
    (l1 l2 : List (Option String × CAnomaly)) :
    connLostEmitted k (l1 ++ l2) = connLostEmitted k l1 + connLostEmitted k l2 := by
  simp [connLostEmitted, List.filter_append]

theorem add_anomalies_drone_statuses (k : Option String) (b : List CAnomaly)
    (st : CentralState) :
    (add_anomalies k b st).1.drone_statuses = st.drone_statuses := by
  unfold add_anomalies
  rcases b.getLast? with _ | last
  · rfl
  · dsimp only
    split_ifs <;> rfl

theorem add_anomalies_active (k : Option String) (b : List CAnomaly)
    (st : CentralState) :
    (add_anomalies k b st).1.active_connections = st.active_connections := by
  unfold add_anomalies
  rcases b.getLast? with _ | last
  · rfl
  · dsimp only
    split_ifs <;> rfl

theorem add_anomalies_report_ne (k k' : Option String) (b : List CAnomaly)
    (st : CentralState) (h : k ≠ k') :
    dictGet (add_anomalies k b st).1.last_anomaly_report k' =
      dictGet st.last_anomaly_report k' := by
  unfold add_anomalies
  rcases b.getLast? with _ | last
  · rfl
  · dsimp only
    split_ifs <;> first
      | rfl
      | exact dictGet_dictSet_ne _ _ _ _ h

theorem add_anomalies_emissions (k : Option String) (b : List CAnomaly)
    (st : CentralState) :
    (add_anomalies k b st).2 = [] ∨ ∃ x, (add_anomalies k b st).2 = [(k, x)] := by
  unfold add_anomalies
  rcases b.getLast? with _ | last
  · exact Or.inl rfl
  · dsimp only
    split_ifs <;> first
      | exact Or.inl rfl
      | exact Or.inr ⟨last, rfl⟩

theorem mem_dictRemove_key_ne {α β : Type} [DecidableEq α]
    (m : List (α × β)) (k : α) (hnd : (dictKeys m).Nodup)
    (p : α × β) (hp : p ∈ dictRemove m k) : p.1 ≠ k := by
  induction m with
  | nil => simp [dictRemove] at hp
  | cons q rest ih =>
      obtain ⟨qk, qv⟩ := q
      rw [dictKeys, List.map_cons, List.nodup_cons] at hnd
      by_cases hq : qk = k
      · subst hq
        simp only [dictRemove, if_pos rfl] at hp
        intro hc
        exact hnd.1 (List.mem_map.2 ⟨p, hp, hc⟩)
      · simp only [dictRemove, hq, if_false, List.mem_cons] at hp
        rcases hp with hp | hp
        · rw [hp]
          exact hq
        · exact ih hnd.2 hp

theorem dictGet_dictRemove_none {α β : Type} [DecidableEq α]
    (m : List (α × β)) (x a : α) (h : dictGet m a = none) :
    dictGet (dictRemove m x) a = none := by
  rcases hg : dictGet (dictRemove m x) a with _ | v
  · rfl
  · exfalso
    have hmem := mem_dictRemove_subset m x (a, v) (mem_of_dictGet_eq_some _ _ _ hg)
    have hk : a ∈ dictKeys m := List.mem_map.2 ⟨(a, v), hmem, rfl⟩
    have hs : (dictGet m a).isSome := (dictGet_isSome_iff_mem_keys m a).2 hk
    rw [h] at hs
    simp at hs

theorem evictAddr_active_none (now : ℚ)
    (acc : CentralState × List (Option String × CAnomaly)) (x a : ℕ)
    (hx : dictGet acc.1.active_connections a = none) :
    dictGet (evictAddr now acc x).1.active_connections a = none := by
  unfold evictAddr
  rcases hg : dictGet acc.1.active_connections x with _ | rec
  · exact hx
  · dsimp only
    split_ifs
    · exact dictGet_dictRemove_none _ _ _ hx
    · rw [add_anomalies_active]
      exact dictGet_dictRemove_none _ _ _ hx
    · exact dictGet_dictRemove_none _ _ _ hx

theorem foldl_evict_active_none (now : ℚ) (a : ℕ) :
    ∀ (addrs : List ℕ) (acc : CentralState × List (Option String × CAnomaly)),
      dictGet acc.1.active_connections a = none →
      dictGet ((addrs.foldl (evictAddr now) acc)).1.active_connections a = none := by
  intro addrs
  induction addrs with
  | nil => intro acc h; exact h
  | cons x addrs ih =>
      intro acc h
      exact ih (evictAddr now acc x) (evictAddr_active_none now acc x a h)

theorem evictAddr_keeps_disconnected (now : ℚ) (d : Option String)
    (acc : CentralState × List (Option String × CAnomaly)) (x : ℕ)
    (hst : dictGet acc.1.drone_statuses d = some "Disconnected") :
    dictGet (evictAddr now acc x).1.drone_statuses d = some "Disconnected" ∧
    connLostEmitted d (evictAddr now acc x).2 = connLostEmitted d acc.2 := by
  unfold evictAddr
  rcases hg : dictGet acc.1.active_connections x with _ | rec
  · exact ⟨hst, rfl⟩
  · dsimp only
    by_cases hstill : stillConnected (evictRemove acc.1 x) rec.drone_id = true
    · rw [if_pos hstill]
      exact ⟨hst, rfl⟩
    · rw [if_neg hstill]
      by_cases hguard : dictGet (evictRemove acc.1 x).drone_statuses rec.drone_id ≠
          some "Disconnected"
      · rw [if_pos hguard]
        have hkd : rec.drone_id ≠ d := by
          intro he
          rw [he] at hguard
          exact hguard hst
        constructor
        · rw [add_anomalies_drone_statuses]
          show dictGet (dictSet acc.1.drone_statuses rec.drone_id "Disconnected") d =
            some "Disconnected"
          rw [dictGet_dictSet_ne _ _ _ _ hkd]
          exact hst
        · rw [connLostEmitted_append]
          rcases add_anomalies_emissions rec.drone_id [connLostAnomaly now]
              (setDisconnected (evictRemove acc.1 x) rec.drone_id) with he | ⟨y, he⟩
          · rw [he]
            simp [connLostEmitted]
          · rw [he]
            simp [connLostEmitted, hkd]
      · rw [if_neg hguard]
        exact ⟨hst, rfl⟩

theorem foldl_evict_keeps_disconnected (now : ℚ) (d : Option String) :
    ∀ (addrs : List ℕ) (acc : CentralState × List (Option String × CAnomaly)),
      dictGet acc.1.drone_statuses d = some "Disconnected" →
      dictGet ((addrs.foldl (evictAddr now) acc)).1.drone_statuses d =
          some "Disconnected" ∧
      connLostEmitted d ((addrs.foldl (evictAddr now) acc)).2 =
          connLostEmitted d acc.2 := by
  intro addrs
  induction addrs with
  | nil => intro acc h; exact ⟨h, rfl⟩
  | cons x addrs ih =>
      intro acc h
      have hstep := evictAddr_keeps_disconnected now d acc x h
      have hrest := ih (evictAddr now acc x) hstep.1
      rw [List.foldl_cons]
      exact ⟨hrest.1, by rw [hrest.2, hstep.2]⟩

/-- A sweep on a state whose drone `d` is already marked Disconnected emits
no further `connection_lost` anomaly for `d`. -/
theorem monitor_sweep_no_emission_when_disconnected (now : ℚ) (st : CentralState)
    (d : Option String) (hst : dictGet st.drone_statuses d = some "Disconnected") :
    connLostEmitted d (monitor_sweep now st).2 = 0 := by
  unfold monitor_sweep
  have hf := foldl_evict_keeps_disconnected now d
    ((st.active_connections.filter fun p =>
      now - p.2.last_active > timeout_seconds).map Prod.fst) (st, []) hst
  rw [hf.2]
  simp [connLostEmitted]

theorem add_anomalies_singleton_pass (k : Option String) (ca : CAnomaly)
    (st : CentralState)
    (h : dictGet ((dictGet st.last_anomaly_report k).getD [])
      (ca.sensor_id, ca.issue) ≠ some ca.value) :
    (add_anomalies k [ca] st).2 = [(k, ca)] := by
  have hl : ([ca] : List CAnomaly).getLast? = some ca := rfl
  simp only [add_anomalies, hl]
  rw [if_pos h]

theorem evictAddr_pre_step (now : ℚ) (st : CentralState) (a : ℕ) (r : ConnRec)
    (d : String)
    (honly : ∀ p ∈ st.active_connections, p.1 ≠ a → p.2.drone_id ≠ some d)
    (acc : CentralState × List (Option String × CAnomaly)) (x : ℕ) (hx : x ≠ a)
    (h1 : dictGet acc.1.active_connections a = some r)
    (h2 : ∀ p ∈ acc.1.active_connections, p ∈ st.active_connections)
    (h3 : (dictKeys acc.1.active_connections).Nodup)
    (h4 : dictGet acc.1.drone_statuses (some d) =
      dictGet st.drone_statuses (some d))
    (h5 : dictGet acc.1.last_anomaly_report (some d) =
      dictGet st.last_anomaly_report (some d))
    (h6 : connLostEmitted (some d) acc.2 = 0) :
    dictGet (evictAddr now acc x).1.active_connections a = some r ∧
    (∀ p ∈ (evictAddr now acc x).1.active_connections, p ∈ st.active_connections) ∧
    (dictKeys (evictAddr now acc x).1.active_connections).Nodup ∧
    dictGet (evictAddr now acc x).1.drone_statuses (some d) =
      dictGet st.drone_statuses (some d) ∧
    dictGet (evictAddr now acc x).1.last_anomaly_report (some d) =
      dictGet st.last_anomaly_report (some d) ∧
    connLostEmitted (some d) (evictAddr now acc x).2 = 0 := by
  unfold evictAddr
  rcases hg : dictGet acc.1.active_connections x with _ | rec
  · exact ⟨h1, h2, h3, h4, h5, h6⟩
  · dsimp only
    have hmemx : (x, rec) ∈ st.active_connections :=
      h2 _ (mem_of_dictGet_eq_some _ _ _ hg)
    have hkx : rec.drone_id ≠ some d := honly _ hmemx hx
    have ha1 : dictGet (dictRemove acc.1.active_connections x) a = some r := by
      rw [dictGet_dictRemove_ne _ _ _ (Ne.symm hx)]
      exact h1
    have hsub1 : ∀ p ∈ dictRemove acc.1.active_connections x,
        p ∈ st.active_connections :=
      fun p hp => h2 p (mem_dictRemove_subset _ _ _ hp)
    have hnd1 : (dictKeys (dictRemove acc.1.active_connections x)).Nodup :=
      dictKeys_dictRemove_nodup _ _ h3
    by_cases hstill : stillConnected (evictRemove acc.1 x) rec.drone_id = true
    · rw [if_pos hstill]
      exact ⟨ha1, hsub1, hnd1, h4, h5, h6⟩
    · rw [if_neg hstill]
      by_cases hguard : dictGet (evictRemove acc.1 x).drone_statuses rec.drone_id ≠
          some "Disconnected"
      · rw [if_pos hguard]
        refine ⟨?_, ?_, ?_, ?_, ?_, ?_⟩
        · rw [add_anomalies_active]
          exact ha1
        · rw [add_anomalies_active]
          exact hsub1
        · rw [add_anomalies_active]
          exact hnd1
        · rw [add_anomalies_drone_statuses]
          show dictGet (dictSet acc.1.drone_statuses rec.drone_id "Disconnected")
            (some d) = _
          rw [dictGet_dictSet_ne _ _ _ _ hkx]
          exact h4
        · rw [add_anomalies_report_ne _ _ _ _ hkx]
          exact h5
        · rw [connLostEmitted_append]
          rcases add_anomalies_emissions rec.drone_id [connLostAnomaly now]
              (setDisconnected (evictRemove acc.1 x) rec.drone_id) with he | ⟨y, he⟩
          · rw [he, h6]
            simp [connLostEmitted]
          · rw [he, h6]
            simp [connLostEmitted, hkx]
      · rw [if_neg hguard]
        exact ⟨ha1, hsub1, hnd1, h4, h5, h6⟩

theorem foldl_evict_pre (now : ℚ) (st : CentralState) (a : ℕ) (r : ConnRec)
    (d : String)
    (honly : ∀ p ∈ st.active_connections, p.1 ≠ a → p.2.drone_id ≠ some d) :
    ∀ (addrs : List ℕ) (acc : CentralState × List (Option String × CAnomaly)),
      (∀ y ∈ addrs, y ≠ a) →
      dictGet acc.1.active_connections a = some r →
      (∀ p ∈ acc.1.active_connections, p ∈ st.active_connections) →
      (dictKeys acc.1.active_connections).Nodup →
      dictGet acc.1.drone_statuses (some d) =
        dictGet st.drone_statuses (some d) →
      dictGet acc.1.last_anomaly_report (some d) =
        dictGet st.last_anomaly_report (some d) →
      connLostEmitted (some d) acc.2 = 0 →
      dictGet ((addrs.foldl (evictAddr now) acc)).1.active_connections a = some r ∧
      (∀ p ∈ ((addrs.foldl (evictAddr now) acc)).1.active_connections,
        p ∈ st.active_connections) ∧
      (dictKeys ((addrs.foldl (evictAddr now) acc)).1.active_connections).Nodup ∧
      dictGet ((addrs.foldl (evictAddr now) acc)).1.drone_statuses (some d) =
        dictGet st.drone_statuses (some d) ∧
      dictGet ((addrs.foldl (evictAddr now) acc)).1.last_anomaly_report (some d) =
        dictGet st.last_anomaly_report (some d) ∧
      connLostEmitted (some d) ((addrs.foldl (evictAddr now) acc)).2 = 0 := by
  intro addrs
  induction addrs with
  | nil =>
      intro acc _ h1 h2 h3 h4 h5 h6
      exact ⟨h1, h2, h3, h4, h5, h6⟩
  | cons x addrs ih =>
      intro acc hne h1 h2 h3 h4 h5 h6
      have hx : x ≠ a := hne x (by simp)
      have hstep := evictAddr_pre_step now st a r d honly acc x hx h1 h2 h3 h4 h5 h6
      rw [List.foldl_cons]
      exact ih (evictAddr now acc x) (fun y hy => hne y (by simp [hy]))
        hstep.1 hstep.2.1 hstep.2.2.1 hstep.2.2.2.1 hstep.2.2.2.2.1 hstep.2.2.2.2.2

theorem evictAddr_at_record (now : ℚ) (st : CentralState) (a : ℕ) (r : ConnRec)
    (d : String)
    (honly : ∀ p ∈ st.active_connections, p.1 ≠ a → p.2.drone_id ≠ some d)
    (hstat : dictGet st.drone_statuses (some d) ≠ some "Disconnected")
    (hded : dictGet ((dictGet st.last_anomaly_report (some d)).getD [])
      (some "N/A", some "connection_lost") ≠ some (some (45 : ℚ)))
    (hdid : r.drone_id = some d)
    (acc : CentralState × List (Option String × CAnomaly))
    (h1 : dictGet acc.1.active_connections a = some r)
    (h2 : ∀ p ∈ acc.1.active_connections, p ∈ st.active_connections)
    (h3 : (dictKeys acc.1.active_connections).Nodup)
    (h4 : dictGet acc.1.drone_statuses (some d) =
      dictGet st.drone_statuses (some d))
    (h5 : dictGet acc.1.last_anomaly_report (some d) =
      dictGet st.last_anomaly_report (some d))
    (h6 : connLostEmitted (some d) acc.2 = 0) :
    dictGet (evictAddr now acc a).1.active_connections a = none ∧
    dictGet (evictAddr now acc a).1.drone_statuses (some d) = some "Disconnected" ∧
    connLostEmitted (some d) (evictAddr now acc a).2 = 1 := by
  unfold evictAddr
  simp only [h1]
  have hstill : ¬ stillConnected (evictRemove acc.1 a) r.drone_id = true := by
    intro hany
    rw [stillConnected, List.any_eq_true] at hany
    obtain ⟨p, hp, hcond⟩ := hany
    rw [Bool.and_eq_true, decide_eq_true_eq] at hcond
    have hpne : p.1 ≠ a := mem_dictRemove_key_ne _ _ h3 p hp
    have hpmem : p ∈ st.active_connections := h2 p (mem_dictRemove_subset _ _ _ hp)
    exact honly p hpmem hpne (by rw [hcond.1, hdid])
  rw [if_neg hstill]
  have hguard : dictGet (evictRemove acc.1 a).drone_statuses r.drone_id ≠
      some "Disconnected" := by
    show dictGet acc.1.drone_statuses r.drone_id ≠ some "Disconnected"
    rw [hdid, h4]
    exact hstat
  rw [if_pos hguard]
  have hrep : dictGet ((dictGet (setDisconnected (evictRemove acc.1 a)
        r.drone_id).last_anomaly_report r.drone_id).getD [])
      ((connLostAnomaly now).sensor_id, (connLostAnomaly now).issue) ≠
        some (connLostAnomaly now).value := by
    show dictGet ((dictGet acc.1.last_anomaly_report r.drone_id).getD [])
      (some "N/A", some "connection_lost") ≠ some (some (45 : ℚ))
    rw [hdid, h5]
    exact hded
  have hemit := add_anomalies_singleton_pass r.drone_id (connLostAnomaly now)
    (setDisconnected (evictRemove acc.1 a) r.drone_id) hrep
  refine ⟨?_, ?_, ?_⟩
  · rw [add_anomalies_active]
    show dictGet (dictRemove acc.1.active_connections a) a = none
    exact dictGet_dictRemove_self _ _ h3
  · rw [add_anomalies_drone_statuses]
    show dictGet (dictSet acc.1.drone_statuses r.drone_id "Disconnected")
      (some d) = _
    rw [hdid, dictGet_dictSet_self]
  · rw [connLostEmitted_append, hemit, h6]
    simp [connLostEmitted, connLostAnomaly, hdid]

/-- C7: any connection record whose inactivity strictly exceeds
`timeout_seconds` is removed by the next sweep; if no other record still
maps to its logical drone id, the sweep marks the drone Disconnected and
emits exactly one `connection_lost` anomaly for it (given that the drone
was not already marked Disconnected and deduplication does not suppress the
alert); and a later sweep, run before any reconnection, emits no second
`connection_lost` anomaly for that drone. -/
theorem liveness_sweep_single_connection_lost (st : CentralState)
    (now now' : ℚ) (a : ℕ) (r : ConnRec) (d : String)
    (hkeys : (dictKeys st.active_connections).Nodup)
    (hget : dictGet st.active_connections a = some r)
    (htimeout : now - r.last_active > timeout_seconds)
    (hdid : r.drone_id = some d)
    (honly : ∀ p ∈ st.active_connections, p.1 ≠ a → p.2.drone_id ≠ some d)
    (hstat : dictGet st.drone_statuses (some d) ≠ some "Disconnected")
    (hded : dictGet ((dictGet st.last_anomaly_report (some d)).getD [])
      (some "N/A", some "connection_lost") ≠ some (some (45 : ℚ))) :
    dictGet (monitor_sweep now st).1.active_connections a = none ∧
    connLostEmitted (some d) (monitor_sweep now st).2 = 1 ∧
    dictGet (monitor_sweep now st).1.drone_statuses (some d) =
      some "Disconnected" ∧
    connLostEmitted (some d) (monitor_sweep now' (monitor_sweep now st).1).2 = 0 := by
  have hamem : (a, r) ∈ st.active_connections := mem_of_dictGet_eq_some _ _ _ hget
  have hafilter : (a, r) ∈ st.active_connections.filter
      (fun p => now - p.2.last_active > timeout_seconds) :=
    List.mem_filter.2 ⟨hamem, by simpa using htimeout⟩
  have hatouts : a ∈ (st.active_connections.filter
      (fun p => now - p.2.last_active > timeout_seconds)).map Prod.fst :=
    List.mem_map.2 ⟨(a, r), hafilter, rfl⟩
  have hndt : ((st.active_connections.filter
      (fun p => now - p.2.last_active > timeout_seconds)).map Prod.fst).Nodup :=
    (List.Sublist.map Prod.fst (List.filter_sublist _)).nodup hkeys
  obtain ⟨pre, post, hsplit⟩ := List.append_of_mem hatouts
  rw [hsplit, List.nodup_append] at hndt
  have hpre_ne : ∀ y ∈ pre, y ≠ a := by
    intro y hy he
    exact (hndt.2.2 hy) (by rw [he]; exact List.mem_cons_self a post)
  have hms : monitor_sweep now st =
      (pre ++ a :: post).foldl (evictAddr now) (st, []) := by
    show ((st.active_connections.filter
        (fun p => now - p.2.last_active > timeout_seconds)).map Prod.fst).foldl
      (evictAddr now) (st, []) = _
    rw [hsplit]
  rw [List.foldl_append, List.foldl_cons] at hms
  have hpre := foldl_evict_pre now st a r d honly pre (st, []) hpre_ne hget
    (fun p hp => hp) hkeys rfl rfl (by simp [connLostEmitted])
  have hA := evictAddr_at_record now st a r d honly hstat hded hdid
    (pre.foldl (evictAddr now) (st, [])) hpre.1 hpre.2.1 hpre.2.2.1
    hpre.2.2.2.1 hpre.2.2.2.2.1 hpre.2.2.2.2.2
  have hpost1 := foldl_evict_keeps_disconnected now (some d) post
    (evictAddr now (pre.foldl (evictAddr now) (st, [])) a) hA.2.1
  have hpost2 := foldl_evict_active_none now a post
    (evictAddr now (pre.foldl (evictAddr now) (st, [])) a) hA.1
  refine ⟨?_, ?_, ?_, ?_⟩
  · rw [hms]
    exact hpost2
  · rw [hms, hpost1.2, hA.2.2]
  · rw [hms]
    exact hpost1.1
  · exact monitor_sweep_no_emission_when_disconnected now'
      (monitor_sweep now st).1 (some d) (by rw [hms]; exact hpost1.1)

/-- A single identified, live connection record. -/
def connW : ConnRec := { drone_id := some "d1", last_active := 0, has_socket := true }

/-- Central state holding only that connection. -/
def stW : CentralState :=
  { anomalies := [], last_anomaly_report := []
    drone_statuses := [], active_connections := [(0, connW)] }

/-- Witness for C7: a sweep at time 50 evicts the idle-since-0 connection,
emits one `connection_lost` for drone d1, and a second sweep at time 100
emits none. -/
theorem liveness_sweep_single_connection_lost_witness :
    ((50 : ℚ) - connW.last_active > timeout_seconds) ∧
    dictGet (monitor_sweep 50 stW).1.active_connections 0 = none ∧
    connLostEmitted (some "d1") (monitor_sweep 50 stW).2 = 1 ∧
    dictGet (monitor_sweep 50 stW).1.drone_statuses (some "d1") =
      some "Disconnected" ∧
    connLostEmitted (some "d1")
      (monitor_sweep 100 (monitor_sweep 50 stW).1).2 = 0 :=
  ⟨by norm_num [connW, timeout_seconds],
   liveness_sweep_single_connection_lost stW 50 100 0 connW "d1" (by decide)
     (by decide) (by norm_num [connW, timeout_seconds]) (by decide) (by decide)
     (by decide) (by decide)⟩

/-! ### Defensive copies: `get_anomalies` / `get_readings`
(`drone_server.py`, lines 140-148), modelled at the reference level -/

/-- Reference-level view of the aggregator state: Python records (dicts)
live behind references, so the anomaly history is a list of addresses into
an anomaly heap and the readings dict maps sensor ids to lists of addresses
into a reading heap. A heap is a total map from addresses to record
values. -/
structure EdgeProcessorRefs where
  anomaly_addrs : List ℕ
  readings_addrs : List (String × List ℕ)
deriving DecidableEq, Repr

/-- `EdgeProcessor.get_anomalies`: `self.anomalies.copy()` builds a fresh
list object whose elements are the same record references as the internal
list — at the value level, the same address list. -/
def get_anomalies (ep : EdgeProcessorRefs) : List ℕ := ep.anomaly_addrs

/-- `EdgeProcessor.get_readings`: `{k: v.copy() for k, v in ...}` builds a
fresh dict of fresh lists whose elements are the same reading references. -/
def get_readings (ep : EdgeProcessorRefs) : List (String × List ℕ) :=
  ep.readings_addrs.map fun p => (p.1, p.2)

/-- The internal anomaly history as observed through the heap. -/
def viewAnomalies (h : ℕ → Anomaly) (ep : EdgeProcessorRefs) : List Anomaly :=
  ep.anomaly_addrs.map h

/-- The internal readings as observed through the heap. -/
def viewReadings (h : ℕ → SensorData) (ep : EdgeProcessorRefs) :
    List (String × List SensorData) :=
  ep.readings_addrs.map fun p => (p.1, p.2.map h)

/-- In-place mutation of the record stored at `addr` (what Python code does
when it assigns into a record taken from a returned list). -/
def heapUpdate {α : Type} (h : ℕ → α) (addr : ℕ) (v : α) : ℕ → α :=
  fun n => if n = addr then v else h n

/-- A concrete anomaly record and an in-place mutation of it. -/
def aRec : Anomaly :=
  { sensor_id := "s1", issue := "temperature_too_high", value := 95, timestamp := 0 }

def aRecMut : Anomaly := { aRec with value := 0 }

/-- Aggregator holding one anomaly record (address 0) and one reading. -/
def epRefs0 : EdgeProcessorRefs :=
  { anomaly_addrs := [0], readings_addrs := [("s1", [0])] }

def heap0 : ℕ → Anomaly := fun _ => aRec

/-- C9 counterexample: the record references returned by `get_anomalies`
are shared with the internal history (`list.copy()` is shallow), so
mutating the record at a returned address changes the aggregator's
internally observed anomaly history — the claim that any mutation of the
returned structures, including the contained records, leaves internal
state unchanged is false at this concrete input. -/
theorem getAnomalies_record_mutation_visible :
    0 ∈ get_anomalies epRefs0 ∧
    viewAnomalies (heapUpdate heap0 0 aRecMut) epRefs0 ≠
      viewAnomalies heap0 epRefs0 := by
  constructor
  · decide
  · decide

/-- C9 amended: the returned containers are fresh but only top-level-deep.
The returned structures equal the internal reference lists (sharing the
record references), and a record mutation at any address not referenced by
the aggregator leaves both observed views unchanged; mutating a returned
(hence shared) record is exactly what the counterexample shows to be
visible internally. -/
theorem getAnomalies_getReadings_shallow_copy (ep : EdgeProcessorRefs)
    (ha : ℕ → Anomaly) (hr : ℕ → SensorData) (addrA addrR : ℕ)
    (va : Anomaly) (vr : SensorData)
    (hnA : addrA ∉ get_anomalies ep)
    (hnR : ∀ p ∈ get_readings ep, addrR ∉ p.2) :
    get_anomalies ep = ep.anomaly_addrs ∧
    get_readings ep = ep.readings_addrs ∧
    viewAnomalies (heapUpdate ha addrA va) ep = viewAnomalies ha ep ∧
    viewReadings (heapUpdate hr addrR vr) ep = viewReadings hr ep := by
  refine ⟨rfl, ?_, ?_, ?_⟩
  · simp [get_readings]
  · unfold viewAnomalies
    apply List.map_congr_left
    intro x hx
    unfold heapUpdate
    rw [if_neg]
    intro he
    rw [he] at hx
    exact hnA hx
  · unfold viewReadings
    apply List.map_congr_left
    intro p hp
    have hinner : p.2.map (heapUpdate hr addrR vr) = p.2.map hr := by
      apply List.map_congr_left
      intro x hx
      unfold heapUpdate
      rw [if_neg]
      intro he
      rw [he] at hx
      exact hnR (p.1, p.2) (List.mem_map.2 ⟨p, hp, rfl⟩) hx
    rw [hinner]

def rheap0 : ℕ → SensorData := fun _ => sdBoundary

/-- Witness for the amended C9 at a fresh address (5) not referenced by the
aggregator. -/
theorem getAnomalies_getReadings_shallow_copy_witness :
    (5 ∉ get_anomalies epRefs0) ∧
    get_anomalies epRefs0 = epRefs0.anomaly_addrs ∧
    get_readings epRefs0 = epRefs0.readings_addrs ∧
    viewAnomalies (heapUpdate heap0 5 aRecMut) epRefs0 =
      viewAnomalies heap0 epRefs0 ∧
    viewReadings (heapUpdate rheap0 5 sdMulti) epRefs0 =
      viewReadings rheap0 epRefs0 :=
  ⟨by decide,
   getAnomalies_getReadings_shallow_copy epRefs0 heap0 rheap0 5 5 aRecMut sdMulti
     (by decide) (by decide)⟩

theorem mem_dictRemove_of_ne {α β : Type} [DecidableEq α]
    (m : List (α × β)) (k : α) (p : α × β) (hp : p ∈ m) (hne : p.1 ≠ k) :
    p ∈ dictRemove m k := by
  induction m with
  | nil => simp at hp
  | cons q rest ih =>
      obtain ⟨qk, qv⟩ := q
      by_cases hq : qk = k
      · simp only [dictRemove, hq, if_pos rfl]
        rcases List.mem_cons.1 hp with hp | hp
        · exact absurd hq (by rw [hp] at hne; exact hne)
        · exact hp
      · simp only [dictRemove, hq, if_false, List.mem_cons]
        rcases List.mem_cons.1 hp with hp | hp
        · exact Or.inl hp
        · exact Or.inr (ih hp)

/-- In every branch, processing an address leaves the connection map intact
or removes exactly that address's record. -/
theorem evictAddr_branches_active (now : ℚ)
    (acc : CentralState × List (Option String × CAnomaly)) (x : ℕ) :
    (evictAddr now acc x).1.active_connections = acc.1.active_connections ∨
    (evictAddr now acc x).1.active_connections =
      dictRemove acc.1.active_connections x := by
  unfold evictAddr
  rcases hg : dictGet acc.1.active_connections x with _ | rec
  · exact Or.inl rfl
  · dsimp only
    split_ifs
    · exact Or.inr rfl
    · rw [add_anomalies_active]
      exact Or.inr rfl
    · exact Or.inr rfl

theorem evictAddr_get_ne (now : ℚ)
    (acc : CentralState × List (Option String × CAnomaly)) (x a : ℕ)
    (v : ConnRec) (hax : a ≠ x)
    (h : dictGet acc.1.active_connections a = some v) :
    dictGet (evictAddr now acc x).1.active_connections a = some v := by
  rcases evictAddr_branches_active now acc x with hb | hb <;> rw [hb]
  · exact h
  · rw [dictGet_dictRemove_ne _ _ _ hax]
    exact h

theorem evictAddr_nodup (now : ℚ)
    (acc : CentralState × List (Option String × CAnomaly)) (x : ℕ)
    (h : (dictKeys acc.1.active_connections).Nodup) :
    (dictKeys (evictAddr now acc x).1.active_connections).Nodup := by
  rcases evictAddr_branches_active now acc x with hb | hb <;> rw [hb]
  · exact h
  · exact dictKeys_dictRemove_nodup _ _ h

theorem evictAddr_removes_self (now : ℚ)
    (acc : CentralState × List (Option String × CAnomaly)) (a : ℕ)
    (hnd : (dictKeys acc.1.active_connections).Nodup) :
    dictGet (evictAddr now acc a).1.active_connections a = none := by
  unfold evictAddr
  rcases hg : dictGet acc.1.active_connections a with _ | rec
  · exact hg
  · dsimp only
    split_ifs
    · exact dictGet_dictRemove_self _ _ hnd
    · rw [add_anomalies_active]
      exact dictGet_dictRemove_self _ _ hnd
    · exact dictGet_dictRemove_self _ _ hnd

theorem foldl_evict_get_nodup (now : ℚ) (a : ℕ) (r : ConnRec) :
    ∀ (addrs : List ℕ) (acc : CentralState × List (Option String × CAnomaly)),
      (∀ x ∈ addrs, x ≠ a) →
      dictGet acc.1.active_connections a = some r →
      (dictKeys acc.1.active_connections).Nodup →
      dictGet ((addrs.foldl (evictAddr now) acc)).1.active_connections a = some r ∧
      (dictKeys ((addrs.foldl (evictAddr now) acc)).1.active_connections).Nodup := by
  intro addrs
  induction addrs with
  | nil => intro acc _ h1 h2; exact ⟨h1, h2⟩
  | cons x addrs ih =>
      intro acc hne h1 h2
      rw [List.foldl_cons]
      exact ih (evictAddr now acc x) (fun y hy => hne y (by simp [hy]))
        (evictAddr_get_ne now acc x a r (fun he => hne x (by simp) he.symm) h1)
        (evictAddr_nodup now acc x h2)

/-- Processing any timed-out address other than `qa` cannot emit a
`connection_lost` for drone `d` nor touch `d`'s status while the live
record `(qa, q)` of drone `d` is present: if the processed record also
belongs to `d`, the still-connected check finds `q` and suppresses the
alert; otherwise the alert concerns another drone. -/
theorem evictAddr_still_step (now : ℚ) (d : String) (qa : ℕ) (q : ConnRec)
    (hqd : q.drone_id = some d) (hqsock : q.has_socket = true)
    (acc : CentralState × List (Option String × CAnomaly)) (x : ℕ) (hxqa : x ≠ qa)
    (hmem : (qa, q) ∈ acc.1.active_connections)
    (hnd : (dictKeys acc.1.active_connections).Nodup) :
    (qa, q) ∈ (evictAddr now acc x).1.active_connections ∧
    (dictKeys (evictAddr now acc x).1.active_connections).Nodup ∧
    dictGet (evictAddr now acc x).1.drone_statuses (some d) =
      dictGet acc.1.drone_statuses (some d) ∧
    connLostEmitted (some d) (evictAddr now acc x).2 =
      connLostEmitted (some d) acc.2 := by
  have hqmem' : (qa, q) ∈ dictRemove acc.1.active_connections x :=
    mem_dictRemove_of_ne _ _ _ hmem (Ne.symm hxqa)
  unfold evictAddr
  rcases hg : dictGet acc.1.active_connections x with _ | rec
  · exact ⟨hmem, hnd, rfl, rfl⟩
  · dsimp only
    by_cases hdx : rec.drone_id = some d
    · have hstill : stillConnected (evictRemove acc.1 x) rec.drone_id = true := by
        rw [stillConnected, List.any_eq_true]
        refine ⟨(qa, q), hqmem', ?_⟩
        rw [Bool.and_eq_true, decide_eq_true_eq]
        exact ⟨by rw [hqd, hdx], hqsock⟩
      rw [if_pos hstill]
      exact ⟨hqmem', dictKeys_dictRemove_nodup _ _ hnd, rfl, rfl⟩
    · by_cases hstill : stillConnected (evictRemove acc.1 x) rec.drone_id = true
      · rw [if_pos hstill]
        exact ⟨hqmem', dictKeys_dictRemove_nodup _ _ hnd, rfl, rfl⟩
      · rw [if_neg hstill]
        by_cases hguard : dictGet (evictRemove acc.1 x).drone_statuses rec.drone_id ≠
            some "Disconnected"
        · rw [if_pos hguard]
          refine ⟨?_, ?_, ?_, ?_⟩
          · rw [add_anomalies_active]
            exact hqmem'
          · rw [add_anomalies_active]
            exact dictKeys_dictRemove_nodup _ _ hnd
          · rw [add_anomalies_drone_statuses]
            show dictGet (dictSet acc.1.drone_statuses rec.drone_id "Disconnected")
              (some d) = _
            rw [dictGet_dictSet_ne _ _ _ _ hdx]
          · rw [connLostEmitted_append]
            rcases add_anomalies_emissions rec.drone_id [connLostAnomaly now]
                (setDisconnected (evictRemove acc.1 x) rec.drone_id) with he | ⟨y, he⟩
            · rw [he]
              simp [connLostEmitted]
            · rw [he]
              simp [connLostEmitted, hdx]
        · rw [if_neg hguard]
          exact ⟨hqmem', dictKeys_dictRemove_nodup _ _ hnd, rfl, rfl⟩

theorem foldl_evict_still (now : ℚ) (d : String) (qa : ℕ) (q : ConnRec)
    (hqd : q.drone_id = some d) (hqsock : q.has_socket = true) :
    ∀ (addrs : List ℕ) (acc : CentralState × List (Option String × CAnomaly)),
      (∀ x ∈ addrs, x ≠ qa) →
      (qa, q) ∈ acc.1.active_connections →
      (dictKeys acc.1.active_connections).Nodup →
      (qa, q) ∈ ((addrs.foldl (evictAddr now) acc)).1.active_connections ∧
      (dictKeys ((addrs.foldl (evictAddr now) acc)).1.active_connections).Nodup ∧
      dictGet ((addrs.foldl (evictAddr now) acc)).1.drone_statuses (some d) =
        dictGet acc.1.drone_statuses (some d) ∧
      connLostEmitted (some d) ((addrs.foldl (evictAddr now) acc)).2 =
        connLostEmitted (some d) acc.2 := by
  intro addrs
  induction addrs with
  | nil => intro acc _ h1 h2; exact ⟨h1, h2, rfl, rfl⟩
  | cons x addrs ih =>
      intro acc hne h1 h2
      have hstep := evictAddr_still_step now d qa q hqd hqsock acc x
        (hne x (by simp)) h1 h2
      rw [List.foldl_cons]
      have hrest := ih (evictAddr now acc x) (fun y hy => hne y (by simp [hy]))
        hstep.1 hstep.2.1
      exact ⟨hrest.1, hrest.2.1, by rw [hrest.2.2.1, hstep.2.2.1],
        by rw [hrest.2.2.2, hstep.2.2.2]⟩

/-- A live, identified record that has been idle since time 50. -/
def connRepeat : ConnRec :=
  { drone_id := some "d1", last_active := 50, has_socket := true }

/-- A reachable repeat-loss state: drone d1 lost its connection once
(its `last_anomaly_report` holds the `("N/A", connection_lost) ↦ 45` entry
written by that first sweep), then reconnected and sent data (status back
to "normal"), and its new — only — connection has been idle past the
timeout again. -/
def stRepeat : CentralState :=
  { anomalies := []
    last_anomaly_report :=
      [(some "d1", [((some "N/A", some "connection_lost"), some 45)])]
    drone_statuses := [(some "d1", "normal")]
    active_connections := [(1, connRepeat)] }

/-- C7 counterexample: at the repeat-loss state the record is timed out, no
other record maps to drone d1, and d1 is not marked Disconnected — the
claim demands exactly one `connection_lost` anomaly — yet the sweep evicts
the record while appending and forwarding nothing: `add_anomalies` drops
the alert because its key/value pair `("N/A", connection_lost) ↦ 45` equals
the entry left by the first loss. -/
theorem liveness_sweep_repeat_loss_no_alert :
    ((100 : ℚ) - connRepeat.last_active > timeout_seconds) ∧
    (∀ p ∈ stRepeat.active_connections, p.1 ≠ 1 → p.2.drone_id ≠ some "d1") ∧
    dictGet stRepeat.drone_statuses (some "d1") ≠ some "Disconnected" ∧
    dictGet (monitor_sweep 100 stRepeat).1.active_connections 1 = none ∧
    (monitor_sweep 100 stRepeat).2 = [] ∧
    (monitor_sweep 100 stRepeat).1.anomalies = [] := by
  have hcond : (100 : ℚ) - connRepeat.last_active > timeout_seconds := by
    norm_num [connRepeat, timeout_seconds]
  have hb : ((fun p : ℕ × ConnRec =>
      decide ((100 : ℚ) - p.2.last_active > timeout_seconds)) (1, connRepeat)) = true := by
    show decide ((100 : ℚ) - connRepeat.last_active > timeout_seconds) = true
    rw [decide_eq_true_eq]
    exact hcond
  have hfil : stRepeat.active_connections.filter
      (fun p => (100 : ℚ) - p.2.last_active > timeout_seconds) = [(1, connRepeat)] := by
    show List.filter _ [(1, connRepeat)] = [(1, connRepeat)]
    rw [List.filter_cons, if_pos hb]
    rfl
  have hms : monitor_sweep 100 stRepeat =
      List.foldl (evictAddr 100) (stRepeat, []) [1] := by
    show ((stRepeat.active_connections.filter fun p =>
        (100 : ℚ) - p.2.last_active > timeout_seconds).map Prod.fst).foldl
      (evictAddr 100) (stRepeat, []) = _
    rw [hfil]
    rfl
  refine ⟨hcond, by decide, by decide, ?_, ?_, ?_⟩
  · rw [hms]
    decide
  · rw [hms]
    decide
  · rw [hms]
    decide

/-- C7 (amended): any record idle strictly beyond `timeout_seconds` is
removed by the next sweep; while another live (socket-holding) record of
the same drone survives the timeout filter, the sweep emits no
`connection_lost` for that drone and leaves its status untouched (the
still-connected-elsewhere suppression); and when no other record maps to
the drone, the drone is not already marked Disconnected and the
deduplicator's last-report entry for `("N/A", connection_lost)` is not
already the timeout value 45, the eviction marks the drone Disconnected
and emits exactly one `connection_lost` anomaly — never two, even if the
sweep runs again before the drone reconnects. -/
theorem liveness_sweep_connection_lost_amended (st : CentralState)
    (now now' : ℚ) (a : ℕ) (r : ConnRec) (d : String)
    (hkeys : (dictKeys st.active_connections).Nodup)
    (hget : dictGet st.active_connections a = some r)
    (htimeout : now - r.last_active > timeout_seconds)
    (hdid : r.drone_id = some d) :
    dictGet (monitor_sweep now st).1.active_connections a = none ∧
    (∀ (qa : ℕ) (q : ConnRec), (qa, q) ∈ st.active_connections →
      q.drone_id = some d → q.has_socket = true →
      ¬ (now - q.last_active > timeout_seconds) →
      connLostEmitted (some d) (monitor_sweep now st).2 = 0 ∧
      dictGet (monitor_sweep now st).1.drone_statuses (some d) =
        dictGet st.drone_statuses (some d)) ∧
    ((∀ p ∈ st.active_connections, p.1 ≠ a → p.2.drone_id ≠ some d) →
      dictGet st.drone_statuses (some d) ≠ some "Disconnected" →
      dictGet ((dictGet st.last_anomaly_report (some d)).getD [])
        (some "N/A", some "connection_lost") ≠ some (some (45 : ℚ)) →
      connLostEmitted (some d) (monitor_sweep now st).2 = 1 ∧
      dictGet (monitor_sweep now st).1.drone_statuses (some d) =
        some "Disconnected" ∧
      connLostEmitted (some d)
        (monitor_sweep now' (monitor_sweep now st).1).2 = 0) := by
  have hamem : (a, r) ∈ st.active_connections := mem_of_dictGet_eq_some _ _ _ hget
  have hafilter : (a, r) ∈ st.active_connections.filter
      (fun p => now - p.2.last_active > timeout_seconds) :=
    List.mem_filter.2 ⟨hamem, by simpa using htimeout⟩
  have hatouts : a ∈ (st.active_connections.filter
      (fun p => now - p.2.last_active > timeout_seconds)).map Prod.fst :=
    List.mem_map.2 ⟨(a, r), hafilter, rfl⟩
  have hms0 : monitor_sweep now st =
      ((st.active_connections.filter
        (fun p => now - p.2.last_active > timeout_seconds)).map Prod.fst).foldl
      (evictAddr now) (st, []) := rfl
  refine ⟨?_, ?_, ?_⟩
  · -- eviction happens unconditionally
    obtain ⟨pre, post, hsplit⟩ := List.append_of_mem hatouts
    have hndt : ((st.active_connections.filter
        (fun p => now - p.2.last_active > timeout_seconds)).map Prod.fst).Nodup :=
      (List.Sublist.map Prod.fst (List.filter_sublist _)).nodup hkeys
    rw [hsplit, List.nodup_append] at hndt
    have hpre_ne : ∀ y ∈ pre, y ≠ a := by
      intro y hy he
      exact (hndt.2.2 hy) (by rw [he]; exact List.mem_cons_self a post)
    have hms : monitor_sweep now st =
        (pre ++ a :: post).foldl (evictAddr now) (st, []) := by
      rw [hms0, hsplit]
    rw [List.foldl_append, List.foldl_cons] at hms
    have hpre2 := foldl_evict_get_nodup now a r pre (st, []) hpre_ne hget hkeys
    have hrem := evictAddr_removes_self now (pre.foldl (evictAddr now) (st, [])) a
      hpre2.2
    rw [hms]
    exact foldl_evict_active_none now a post _ hrem
  · -- suppression while another live record of the drone survives the filter
    intro qa q hq hqd hqsock hqfresh
    have htne : ∀ x ∈ (st.active_connections.filter
        (fun p => now - p.2.last_active > timeout_seconds)).map Prod.fst, x ≠ qa := by
      intro x hx he
      subst he
      obtain ⟨p, hpf, hp1⟩ := List.mem_map.1 hx
      have hpmem := (List.mem_filter.1 hpf).1
      have hpt := (List.mem_filter.1 hpf).2
      have hgp : dictGet st.active_connections x = some p.2 := by
        apply dictGet_of_mem _ _ _ hkeys
        rw [← hp1]
        exact hpmem
      have hgq : dictGet st.active_connections x = some q :=
        dictGet_of_mem _ _ _ hkeys hq
      rw [hgp] at hgq
      have hpq : p.2 = q := by injection hgq
      rw [decide_eq_true_eq, hpq] at hpt
      exact hqfresh hpt
    have hfold := foldl_evict_still now d qa q hqd hqsock
      ((st.active_connections.filter
        (fun p => now - p.2.last_active > timeout_seconds)).map Prod.fst)
      (st, []) htne hq hkeys
    constructor
    · rw [hms0, hfold.2.2.2]
      simp [connLostEmitted]
    · rw [hms0]
      exact hfold.2.2.1
  · -- first-loss emission, exactly once, and silence on the next sweep
    intro honly hstat hded
    exact (liveness_sweep_single_connection_lost st now now' a r d hkeys hget
      htimeout hdid honly hstat hded).2

/-- A second record for drone d1 that is live and still fresh at time 50. -/
def connFresh : ConnRec :=
  { drone_id := some "d1", last_active := 40, has_socket := true }

/-- Drone d1 with one stale and one fresh live connection (the
quick-reconnect-under-a-new-address scenario). -/
def stW2 : CentralState :=
  { anomalies := [], last_anomaly_report := []
    drone_statuses := [(some "d1", "normal")]
    active_connections := [(0, connW), (1, connFresh)] }

/-- Witness for the amended C7: at `stW2` the sweep evicts the stale record
but, the fresh record being live, emits nothing and leaves d1's status
alone; at `stW` (single stale record, fresh dedup state) it emits exactly
one `connection_lost`, marks d1 Disconnected, and a second sweep emits
nothing more. -/
theorem liveness_sweep_connection_lost_amended_witness :
    ((50 : ℚ) - connW.last_active > timeout_seconds) ∧
    (¬ ((50 : ℚ) - connFresh.last_active > timeout_seconds)) ∧
    dictGet (monitor_sweep 50 stW2).1.active_connections 0 = none ∧
    connLostEmitted (some "d1") (monitor_sweep 50 stW2).2 = 0 ∧
    dictGet (monitor_sweep 50 stW2).1.drone_statuses (some "d1") =
      dictGet stW2.drone_statuses (some "d1") ∧
    connLostEmitted (some "d1") (monitor_sweep 50 stW).2 = 1 ∧
    dictGet (monitor_sweep 50 stW).1.drone_statuses (some "d1") =
      some "Disconnected" ∧
    connLostEmitted (some "d1") (monitor_sweep 100 (monitor_sweep 50 stW).1).2 = 0 := by
  have h1 := liveness_sweep_connection_lost_amended stW2 50 100 0 connW "d1"
    (by decide) (by decide) (by norm_num [connW, timeout_seconds]) (by decide)
  have h2 := liveness_sweep_connection_lost_amended stW 50 100 0 connW "d1"
    (by decide) (by decide) (by norm_num [connW, timeout_seconds]) (by decide)
  have hsup := h1.2.1 1 connFresh (by decide) (by decide) (by decide)
    (by norm_num [connFresh, timeout_seconds])
  have hone := h2.2.2 (by decide) (by decide) (by decide)
  exact ⟨by norm_num [connW, timeout_seconds],
    by norm_num [connFresh, timeout_seconds],
    h1.1, hsup.1, hsup.2, hone.1, hone.2.1, hone.2.2⟩
